import Mathlib

/-!
# Verification of the biome_lab simulation core

Shallow embedding of the simulation pipeline of the repository
(`src/sim/noise.ts`, `src/sim/climate.ts`, `src/sim/brush.ts`,
`src/sim/rivers.ts`, `src/sim/worker.ts`) and proofs about it.

JavaScript numbers are modelled exactly: a rational number, or one of the
IEEE-754 special values `NaN`, `+Infinity`, `-Infinity`, which the code can
reach (division `0/0` in `computeTemperature` at grid size 1, and
out-of-bounds typed-array reads in `smoothRegion`, which yield `undefined`
and hence `NaN` when used arithmetically).  Rounding of `Float32` arithmetic
is idealised as exact rational arithmetic; the claims under study are about
the real-number behaviour of the formulas, not about rounding.
-/

/-- A JavaScript number: NaN, +Infinity, -Infinity, or a (finite) rational. -/
inductive JsNum where
  | nan : JsNum
  | inf : JsNum
  | ninf : JsNum
  | num (q : ℚ) : JsNum
deriving DecidableEq, Repr

namespace JsNum

/-- JavaScript `<` (false whenever either operand is NaN). -/
def jlt : JsNum → JsNum → Bool
  | nan, _ => false
  | _, nan => false
  | inf, _ => false
  | ninf, ninf => false
  | ninf, _ => true
  | num _, inf => true
  | num _, ninf => false
  | num a, num b => a < b

/-- JavaScript `<=` (false whenever either operand is NaN). -/
def jle : JsNum → JsNum → Bool
  | nan, _ => false
  | _, nan => false
  | ninf, _ => true
  | inf, inf => true
  | inf, _ => false
  | num _, inf => true
  | num _, ninf => false
  | num a, num b => a ≤ b

/-- JavaScript `+` on numbers. -/
def jadd : JsNum → JsNum → JsNum
  | nan, _ => nan
  | _, nan => nan
  | inf, ninf => nan
  | ninf, inf => nan
  | inf, _ => inf
  | _, inf => inf
  | ninf, _ => ninf
  | _, ninf => ninf
  | num a, num b => num (a + b)

/-- JavaScript `-` on numbers. -/
def jsub : JsNum → JsNum → JsNum
  | nan, _ => nan
  | _, nan => nan
  | inf, inf => nan
  | ninf, ninf => nan
  | inf, _ => inf
  | ninf, _ => ninf
  | num _, inf => ninf
  | num _, ninf => inf
  | num a, num b => num (a - b)

/-- JavaScript `*` on numbers. -/
def jmul : JsNum → JsNum → JsNum
  | nan, _ => nan
  | _, nan => nan
  | inf, inf => inf
  | inf, ninf => ninf
  | ninf, inf => ninf
  | ninf, ninf => inf
  | inf, num q => if q = 0 then nan else if 0 < q then inf else ninf
  | num q, inf => if q = 0 then nan else if 0 < q then inf else ninf
  | ninf, num q => if q = 0 then nan else if 0 < q then ninf else inf
  | num q, ninf => if q = 0 then nan else if 0 < q then ninf else inf
  | num a, num b => num (a * b)

/-- JavaScript `/` on numbers (with the single model zero treated as `+0`). -/
def jdiv : JsNum → JsNum → JsNum
  | nan, _ => nan
  | _, nan => nan
  | inf, inf => nan
  | inf, ninf => nan
  | ninf, inf => nan
  | ninf, ninf => nan
  | inf, num q => if 0 ≤ q then inf else ninf
  | ninf, num q => if 0 ≤ q then ninf else inf
  | num _, inf => num 0
  | num _, ninf => num 0
  | num a, num b =>
      if b = 0 then (if a = 0 then nan else if 0 < a then inf else ninf)
      else num (a / b)

/-- JavaScript `Math.abs`. -/
def jabs : JsNum → JsNum
  | nan => nan
  | inf => inf
  | ninf => inf
  | num q => num |q|

/-- JavaScript `Math.max` of two numbers (NaN if either operand is NaN). -/
def jmax : JsNum → JsNum → JsNum
  | nan, _ => nan
  | _, nan => nan
  | a, b => if jlt a b then b else a

/-- `true` iff the value is a finite number. -/
def isFinite : JsNum → Bool
  | num _ => true
  | _ => false

end JsNum

open JsNum

/-- Read a JS typed array at an integer index.  An out-of-range index yields
`undefined`, which behaves as NaN in every numeric use in the sources. -/
def jget (f : List JsNum) (i : ℤ) : JsNum :=
  if 0 ≤ i then f.getD i.toNat JsNum.nan else JsNum.nan

/-- Write a JS typed array at an integer index; out-of-range writes are
ignored, exactly as for JS typed arrays. -/
def jset (f : List JsNum) (i : ℤ) (v : JsNum) : List JsNum :=
  if 0 ≤ i then f.set i.toNat v else f

/-- Read a byte array (`Uint8Array`) at an integer index, default 0. -/
def bget (f : List ℕ) (i : ℤ) : ℕ :=
  if 0 ≤ i then f.getD i.toNat 0 else 0

/-- Write a byte array at an integer index; out-of-range writes ignored. -/
def bset (f : List ℕ) (i : ℤ) (v : ℕ) : List ℕ :=
  if 0 ≤ i then f.set i.toNat v else f

/-- `n` consecutive integers starting at `a`. -/
def intRangeGo : ℕ → ℤ → List ℤ
  | 0, _ => []
  | n + 1, a => a :: intRangeGo n (a + 1)

/-- The integer range `[a, b]` (inclusive), empty when `b < a`: the index
sequence of a JS loop `for (let i = a; i <= b; i++)`. -/
def intRange (a b : ℤ) : List ℤ :=
  intRangeGo (b + 1 - a).toNat a

theorem length_jset (f : List JsNum) (i : ℤ) (v : JsNum) :
    (jset f i v).length = f.length := by
  unfold jset; split <;> simp

theorem length_bset (f : List ℕ) (i : ℤ) (v : ℕ) :
    (bset f i v).length = f.length := by
  unfold bset; split <;> simp

theorem jget_jset_self (f : List JsNum) (i : ℤ) (v : JsNum)
    (h0 : 0 ≤ i) (hl : i.toNat < f.length) : jget (jset f i v) i = v := by
  unfold jget jset
  simp [h0, List.getElem?_set_self hl]

theorem jget_jset_ne (f : List JsNum) (i j : ℤ) (v : JsNum)
    (h : i ≠ j) : jget (jset f i v) j = jget f j := by
  unfold jget jset
  by_cases h0 : 0 ≤ i
  · by_cases h1 : 0 ≤ j
    · have hne : i.toNat ≠ j.toNat := by omega
      simp [h0, h1, List.getElem?_set_ne hne]
    · simp [h0, h1]
  · simp [h0]

theorem intRange_eq_nil {a b : ℤ} (h : b < a) : intRange a b = [] := by
  unfold intRange
  rw [show (b + 1 - a).toNat = 0 by omega]
  rfl

theorem intRange_eq_cons {a b : ℤ} (h : a ≤ b) :
    intRange a b = a :: intRange (a + 1) b := by
  unfold intRange
  rw [show (b + 1 - a).toNat = (b + 1 - (a + 1)).toNat + 1 by omega]
  rfl

theorem mem_intRange_aux (n : ℕ) : ∀ a b i : ℤ, (b + 1 - a).toNat = n →
    (i ∈ intRange a b ↔ a ≤ i ∧ i ≤ b) := by
  induction n with
  | zero =>
    intro a b i h
    rw [intRange_eq_nil (by omega)]
    simp
    omega
  | succ m ih =>
    intro a b i h
    rw [intRange_eq_cons (by omega), List.mem_cons, ih (a + 1) b i (by omega)]
    omega

theorem mem_intRange {a b i : ℤ} : i ∈ intRange a b ↔ a ≤ i ∧ i ≤ b :=
  mem_intRange_aux (b + 1 - a).toNat a b i rfl

/-! ## Data model (`src/model/types.ts`) -/

/-- Noise parameters (`NoiseParams` in `types.ts`). -/
structure NoiseParams where
  octaves : ℕ
  lacunarity : ℚ
  gain : ℚ
  warp : ℚ
deriving DecidableEq, Repr

/-- Climate parameters (`ClimateParams` in `types.ts`). -/
structure ClimateParams where
  seaLevel : ℚ
  tempLapse : ℚ
  moistureShift : ℚ
deriving DecidableEq, Repr

/-- Simulation parameters (`SimParams` in `types.ts`). -/
structure SimParams where
  size : ℕ
  noise : NoiseParams
  climate : ClimateParams
  riverThreshold : ℚ
deriving DecidableEq, Repr

/-- Brush kinds (`BrushKind` in `types.ts`). -/
inductive BrushKind where
  | raise : BrushKind
  | lower : BrushKind
  | smooth : BrushKind
  | rain : BrushKind
deriving DecidableEq, Repr

/-- A brush (`Brush` in `types.ts`). -/
structure Brush where
  kind : BrushKind
  radius : ℚ
  strength : ℚ
deriving DecidableEq, Repr

/-- The five field arrays (`Fields` in `types.ts`).  `height`, `temperature`
and `moisture` are `Float32Array`s, `rivers` and `biomes` are `Uint8Array`s. -/
structure Fields where
  height : List JsNum
  temperature : List JsNum
  moisture : List JsNum
  rivers : List ℕ
  biomes : List ℕ
deriving DecidableEq, Repr

/-! ## Brush editor (`src/sim/brush.ts`) -/

/-- An inclusive dirty rectangle (`DirtyRect` in `brush.ts`). -/
structure DirtyRect where
  x0 : ℤ
  y0 : ℤ
  x1 : ℤ
  y1 : ℤ
deriving DecidableEq, Repr

/-- The `clamp` helper of `brush.ts` with both `min` and `max` supplied,
specialised to integer arguments (all its call sites pass integers). -/
def clampBothI (v lo hi : ℤ) : ℤ :=
  if v < lo then lo else if hi < v then hi else v

/-- The `clamp` helper of `brush.ts` applied to a field value with rational
bounds (`clampRegion`'s use); NaN fails both comparisons and is kept. -/
def jclampNum (v : JsNum) (lo hi : ℚ) : JsNum :=
  if jlt v (num lo) then num lo else if jlt (num hi) v then num hi else v

/-- `strokeBounds` of `brush.ts`: bounding box of a circular stroke,
expanded by `pad` and clamped to the grid. -/
def strokeBounds (x y radius : ℚ) (size : ℤ) (pad : ℤ) : DirtyRect :=
  let r : ℤ := max 1 ⌊radius⌋
  { x0 := max 0 ⌊x - (r : ℚ) - (pad : ℚ)⌋
    y0 := max 0 ⌊y - (r : ℚ) - (pad : ℚ)⌋
    x1 := min (size - 1) ⌈x + (r : ℚ) + (pad : ℚ)⌉
    y1 := min (size - 1) ⌈y + (r : ℚ) + (pad : ℚ)⌉ }

/-- `radialAdd` of `brush.ts`: adds `strength * falloff` inside the brush
disk.  The cosine falloff `0.5*(1+cos(pi*d/radius))` of the source is an
irrational-valued function of `d = sqrt(d2)`; since our model uses exact
rational arithmetic, the development is parametrised by `fall2`, where
`fall2 d2` stands for the falloff evaluated at squared distance `d2`.  Every
theorem about `radialAdd` below is proved for an arbitrary `fall2`, hence in
particular for the cosine falloff of the source. -/
def radialAdd (fall2 : ℚ → ℚ) (field : List JsNum) (size : ℤ)
    (cx cy radius strength : ℚ) : List JsNum :=
  let r2 := radius * radius
  let x0 : ℤ := max 0 ⌊cx - radius⌋
  let y0 : ℤ := max 0 ⌊cy - radius⌋
  let x1 : ℤ := min (size - 1) ⌈cx + radius⌉
  let y1 : ℤ := min (size - 1) ⌈cy + radius⌉
  (intRange y0 y1).foldl (fun f (y : ℤ) =>
    let dy : ℚ := (y : ℚ) - cy
    (intRange x0 x1).foldl (fun f (x : ℤ) =>
      let dx : ℚ := (x : ℚ) - cx
      let d2 := dx * dx + dy * dy
      if r2 < d2 then f
      else
        let idx := y * size + x
        jset f idx (jadd (jget f idx) (num (strength * fall2 d2)))) f) field

/-- `smoothRegion` of `brush.ts`: separable running-sum blur blended into the
original field.  The temporary buffer reads of the vertical pass may go out
of bounds exactly as in the source (they yield NaN). -/
def smoothRegion (field : List JsNum) (size : ℤ) (b : DirtyRect)
    (kernelRadius alpha : ℚ) : List JsNum :=
  let k : ℤ := max 1 ⌊kernelRadius⌋
  let w : ℤ := b.x1 - b.x0 + 1
  let h : ℤ := b.y1 - b.y0 + 1
  let norm : ℚ := 1 / (2 * (k : ℚ) + 1)
  let tmp0 : List JsNum := List.replicate (w * h).toNat (num 0)
  let tmp :=
    (intRange b.y0 b.y1).foldl (fun tmp y =>
      let ry := y - b.y0
      let sum0 := (intRange (b.x0 - k) (b.x0 + k)).foldl (fun s x =>
        jadd s (jget field (y * size + clampBothI x 0 (size - 1)))) (num 0)
      ((intRange b.x0 b.x1).foldl (fun st x =>
        let left := x - k - 1
        let right := x + k
        let li := clampBothI left 0 (size - 1)
        let ri := clampBothI right 0 (size - 1)
        let s1 := if 0 ≤ left then jsub st.1 (jget field (y * size + li)) else st.1
        let s2 := if right < size then jadd s1 (jget field (y * size + ri)) else s1
        (s2, jset st.2 (ry * w + (x - b.x0)) (jmul s2 (num norm)))) (sum0, tmp)).2) tmp0
  (intRange 0 (w - 1)).foldl (fun f x =>
    let sum0 := (intRange (b.y0 - k) (b.y0 + k)).foldl (fun s y =>
      let yi := clampBothI y 0 (size - 1) - b.y0
      jadd s (jget tmp (yi * w + x))) (num 0)
    ((intRange b.y0 b.y1).foldl (fun st y =>
      let ry := y - b.y0
      let top := ry - k - 1
      let bot := ry + k
      let ti := clampBothI top 0 (h - 1)
      let bi := clampBothI bot 0 (h - 1)
      let s1 := if 0 ≤ top then jsub st.1 (jget tmp (ti * w + x)) else st.1
      let s2 := if bot < h then jadd s1 (jget tmp (bi * w + x)) else s1
      let blurred := jmul s2 (num norm)
      let idx := y * size + (b.x0 + x)
      (s2, jset st.2 idx
        (jadd (jmul (jget st.2 idx) (num (1 - alpha))) (jmul blurred (num alpha))))) (sum0, f)).2) field

/-- `clampRegion` of `brush.ts`: clamps every cell of a rectangle. -/
def clampRegion (field : List JsNum) (size : ℤ) (r : DirtyRect)
    (lo hi : ℚ) : List JsNum :=
  (intRange r.y0 r.y1).foldl (fun f y =>
    (intRange r.x0 r.x1).foldl (fun f x =>
      let i := y * size + x
      jset f i (jclampNum (jget f i) lo hi)) f) field

/-- `applyBrush` of `brush.ts` (parametrised by the radial falloff `fall2`,
see `radialAdd`).  Returns the updated height field, the updated moisture
field and the dirty rectangle. -/
def applyBrush (fall2 : ℚ → ℚ) (height moisture : List JsNum) (size : ℤ)
    (cx cy : ℚ) (brush : Brush) : List JsNum × List JsNum × DirtyRect :=
  let bounds := strokeBounds cx cy brush.radius size
    (if brush.kind = BrushKind.smooth then 2 else 1)
  match brush.kind with
  | BrushKind.raise =>
      let h1 := radialAdd fall2 height size cx cy brush.radius brush.strength
      (clampRegion h1 size bounds 0 1, moisture, bounds)
  | BrushKind.lower =>
      let h1 := radialAdd fall2 height size cx cy brush.radius (-brush.strength)
      (clampRegion h1 size bounds 0 1, moisture, bounds)
  | BrushKind.smooth =>
      let h1 := smoothRegion height size bounds brush.radius brush.strength
      (clampRegion h1 size bounds 0 1, moisture, bounds)
  | BrushKind.rain =>
      let m1 := radialAdd fall2 moisture size cx cy brush.radius brush.strength
      (height, clampRegion m1 size bounds 0 1, bounds)

/-! ## Climate deriver (`src/sim/climate.ts`) -/

/-- The `clamp01` helper of `climate.ts` (`v < 0 ? 0 : v > 1 ? 1 : v`);
NaN fails both comparisons and is kept. -/
def clamp01J (v : JsNum) : JsNum :=
  if jlt v (num 0) then num 0 else if jlt (num 1) v then num 1 else v

/-- `clamp01` on rationals (the value the code computes on finite input). -/
def clamp01Q (q : ℚ) : ℚ :=
  if q < 0 then 0 else if 1 < q then 1 else q

/-- `rectAll` of `climate.ts`: the full-grid rectangle. -/
def rectAll (size : ℤ) : DirtyRect :=
  { x0 := 0, y0 := 0, x1 := size - 1, y1 := size - 1 }

/-- Biome indices (`Biome` enum in `src/model/constants.ts`). -/
def Biome.Ocean : ℕ := 0

def Biome.Beach : ℕ := 1

def Biome.Desert : ℕ := 2

def Biome.Savanna : ℕ := 3

def Biome.Grassland : ℕ := 4

def Biome.Shrubland : ℕ := 5

def Biome.TemperateForest : ℕ := 6

def Biome.BorealForest : ℕ := 7

def Biome.Rainforest : ℕ := 8

def Biome.Tundra : ℕ := 9

def Biome.Mountain : ℕ := 10

def Biome.Snow : ℕ := 11

/-- `computeTemperature` of `climate.ts`.  Note `lat = y / (size - 1)`, a JS
division: at `size = 1` it is `0/0 = NaN` for the only valid row `y = 0`. -/
def computeTemperature (height : List JsNum) (size : ℤ) (tempLapse : ℚ)
    (out : List JsNum) (r : DirtyRect) : List JsNum :=
  (intRange r.y0 r.y1).foldl (fun out (y : ℤ) =>
    let lat := jdiv (num (y : ℚ)) (num ((size : ℚ) - 1))
    let pole := jmul (jabs (jsub lat (num 0.5))) (num 2)
    (intRange r.x0 r.x1).foldl (fun out (x : ℤ) =>
      let i := y * size + x
      let h := jget height i
      let t := clamp01J (jsub (jsub (num 1) (jmul (num tempLapse) h))
        (jmul (num 0.6) pole))
      jset out i t) out) out

/-- `computeMoisture` of `climate.ts`: base moisture clamped, then the
rain-shadow correction, clamped again. -/
def computeMoisture (height : List JsNum) (size : ℤ) (moistureShift : ℚ)
    (out : List JsNum) (r : DirtyRect) : List JsNum :=
  (intRange r.y0 r.y1).foldl (fun out (y : ℤ) =>
    (intRange r.x0 r.x1).foldl (fun out (x : ℤ) =>
      let i := y * size + x
      let h := jget height i
      let m := clamp01J (jadd (jsub (num 1) h) (num moistureShift))
      let left := if 0 < x then jget height (y * size + (x - 1)) else h
      let right := if x < size - 1 then jget height (y * size + (x + 1)) else h
      let slope := jsub right left
      let m2 := clamp01J (jsub (jadd m (jmul (num 0.15) (jmax (num 0) slope)))
        (jmul (num 0.10) (jmax (num 0) (jsub (num 0) slope))))
      jset out i m2) out) out

/-- The per-cell decision list of `classifyBiomes` of `climate.ts`. -/
def biomeAt (sea : ℚ) (h t m : JsNum) : ℕ :=
  if jlt h (num sea) then Biome.Ocean
  else if jlt h (num (sea + 0.02)) then Biome.Beach
  else if jlt (num 0.88) h ∧ jlt t (num 0.45) then Biome.Snow
  else if jlt (num 0.84) h then Biome.Mountain
  else if jlt t (num 0.33) then
    (if jlt m (num 0.35) then Biome.Tundra else Biome.BorealForest)
  else if jlt t (num 0.66) then
    (if jlt m (num 0.30) then Biome.Shrubland
     else if jlt m (num 0.55) then Biome.Grassland
     else Biome.TemperateForest)
  else
    (if jlt m (num 0.28) then Biome.Desert
     else if jlt m (num 0.55) then Biome.Savanna
     else Biome.Rainforest)

/-- `classifyBiomes` of `climate.ts`. -/
def classifyBiomes (height temperature moisture : List JsNum) (size : ℤ)
    (sea : ℚ) (out : List ℕ) (r : DirtyRect) : List ℕ :=
  (intRange r.y0 r.y1).foldl (fun out (y : ℤ) =>
    (intRange r.x0 r.x1).foldl (fun out (x : ℤ) =>
      let i := y * size + x
      bset out i (biomeAt sea (jget height i) (jget temperature i)
        (jget moisture i))) out) out

/-- `recomputeDerived` of `climate.ts`: temperature, then moisture, then
biomes, over the given rectangle. -/
def recomputeDerived (f : Fields) (size : ℤ) (p : SimParams)
    (r : DirtyRect) : Fields :=
  let t := computeTemperature f.height size p.climate.tempLapse f.temperature r
  let m := computeMoisture f.height size p.climate.moistureShift f.moisture r
  let b := classifyBiomes f.height t m size p.climate.seaLevel f.biomes r
  { f with temperature := t, moisture := m, biomes := b }

/-! ## River router (`src/sim/rivers.ts`) -/

/-- One candidate-neighbor check of the `downhill` helper: skip the centre
offset and out-of-grid neighbors; keep the neighbor with the largest
strictly positive height drop seen so far. -/
def downhillStep (height : List JsNum) (size x y : ℤ) (z : JsNum) (dy : ℤ)
    (best : ℤ × JsNum) (dx : ℤ) : ℤ × JsNum :=
  if dx = 0 ∧ dy = 0 then best
  else
    let nx := x + dx
    let ny := y + dy
    if nx < 0 ∨ ny < 0 ∨ size ≤ nx ∨ size ≤ ny then best
    else
      let j := ny * size + nx
      let drop := jsub z (jget height j)
      if jlt best.2 drop then (j, drop) else best

/-- The `downhill` helper of `computeRivers`: index of the steepest strictly
lower 8-neighbor of cell `i`, or `-1` if there is none.  `Math.floor(i/size)`
is floor division. -/
def downhill (height : List JsNum) (size i : ℤ) : ℤ :=
  let y := Int.fdiv i size
  let x := i - y * size
  let z := jget height i
  let best := (intRange (-1) 1).foldl (fun best (dy : ℤ) =>
    (intRange (-1) 1).foldl (downhillStep height size x y z dy) best)
    ((-1 : ℤ), num 0)
  if jlt (num 0) best.2 then best.1 else -1

/-- One iteration of the flow-accumulation loop of `computeRivers`: a cell
at or below sea level has its accumulator zeroed, any other cell gets
`accum[i] + 1` and pushes that total to its downhill neighbor (if any). -/
def accumStep (height : List JsNum) (size : ℤ) (sea : ℚ)
    (accum : List JsNum) (i : ℤ) : List JsNum :=
  let z := jget height i
  if jle z (num sea) then jset accum i (num 0)
  else
    let total := jadd (jget accum i) (num 1)
    let j := downhill height size i
    let accum1 := if 0 ≤ j then jset accum j (jadd (jget accum j) total) else accum
    jset accum1 i total

/-- The flow-accumulation loop of `computeRivers`: processes the cells in
the given order. -/
def accumulateFlow (height : List JsNum) (size : ℤ) (sea : ℚ)
    (order : List ℤ) (accum0 : List JsNum) : List JsNum :=
  order.foldl (accumStep height size sea) accum0

/-- The `maxA` scan of `computeRivers`. -/
def maxAccum (accum : List JsNum) : JsNum :=
  accum.foldl (fun m a => if jlt m a then a else m) (num 0)

/-- The value written into `rivers[i]` by the final loop of `computeRivers`. -/
def riverMaskAt (height accum : List JsNum) (sea thr : ℚ) (invMax : JsNum)
    (i : ℤ) : ℕ :=
  let z := jget height i
  if jle z (num sea) then 0
  else
    let a := jmul (jget accum i) invMax
    if jle (num thr) a then 1 else 0

/-- `computeRivers` of `src/sim/rivers.ts`: D8 flow routing with
accumulation, normalisation by the grid maximum, and thresholding.

The source sorts the index array with the comparator
`(a, b) => height[b] - height[a]` (descending height); the model pins a
stable merge sort with the corresponding boolean relation
`height[b] <= height[a]`.  The tie order of equal heights is unspecified in
the source (it depends on the engine's sort); every theorem proved below is
insensitive to the order of ties. -/
def computeRivers (f : Fields) (size : ℤ) (p : SimParams) : Fields :=
  let height := f.height
  let sea := p.climate.seaLevel
  let n := size * size
  let accum0 : List JsNum := List.replicate n.toNat (num 0)
  let order := (intRange 0 (n - 1)).mergeSort
    (fun a b => jle (jget height b) (jget height a))
  let accum := accumulateFlow height size sea order accum0
  let maxA := maxAccum accum
  let invMax := if jlt (num 0) maxA then jdiv (num 1) maxA else num 1
  let rivers := (intRange 0 (n - 1)).foldl (fun rv i =>
    bset rv i (riverMaskAt height accum sea p.riverThreshold invMax i)) f.rivers
  { f with rivers := rivers }

/-! ## Noise synthesis (`src/sim/noise.ts`) -/

/-- One step of the 32-bit xorshift generator of `noise.ts` (`s ^= s << 13`,
`s ^= s >>> 17`, `s ^= s << 5`, each followed by `>>> 0`), on states below
`2^32`. -/
def xorshift32Step (s : ℕ) : ℕ :=
  let s1 := (s ^^^ (s * 8192) % 4294967296) % 4294967296
  let s2 := (s1 ^^^ s1 / 131072) % 4294967296
  let s3 := (s2 ^^^ (s2 * 32) % 4294967296) % 4294967296
  s3

/-- The initial xorshift state: `seed >>> 0 || 1` (a zero seed is forced
to 1). -/
def xorshift32Init (seed : ℕ) : ℕ :=
  if seed % 4294967296 = 0 then 1 else seed % 4294967296

/-- The float produced by one call of the generator closure, in `[0, 1)`. -/
def xorshiftFloat (s : ℕ) : ℚ :=
  (s : ℚ) / 4294967296

/-- The Fisher-Yates shuffle of `[0..255]` performed by the `ValueNoise2D`
constructor, driven by the xorshift stream; returns the shuffled table. -/
def buildPerm256 (seed : ℕ) : List ℕ :=
  let s0 := xorshift32Init seed
  let descIdx : List ℕ := (List.range 255).map (fun k => 255 - k)
  (descIdx.foldl (fun (st : ℕ × List ℕ) (i : ℕ) =>
    let s' := xorshift32Step st.1
    let j : ℕ := (⌊xorshiftFloat s' * ((i : ℚ) + 1)⌋).toNat
    let pi := st.2.getD i 0
    let pj := st.2.getD j 0
    (s', (st.2.set i pj).set j pi)) (s0, List.range 256)).2

/-- The 512-entry duplicated permutation table (`perm[i] = p[i & 255]`). -/
def permTable (seed : ℕ) : List ℕ :=
  (List.range 512).map (fun i => (buildPerm256 seed).getD (i % 256) 0)

/-- `ValueNoise2D.lattice`: `(perm[ix & 255] + iy) & 255`.  On two's
complement 32-bit integers, `& 255` is `emod 256`. -/
def lattice (perm : List ℕ) (ix iy : ℤ) : ℕ :=
  (((perm.getD (ix.emod 256).toNat 0 : ℤ) + iy).emod 256).toNat

/-- `ValueNoise2D.val`: lattice value mapped to `[0, 1)`. -/
def latticeVal (perm : List ℕ) (ix iy : ℤ) : ℚ :=
  (perm.getD (lattice perm ix iy) 0 : ℚ) / 255

/-- The quintic fade `t³(t(6t−15)+10)` of `noise.ts`. -/
def fade (t : ℚ) : ℚ :=
  t * t * t * (t * (t * 6 - 15) + 10)

/-- `lerp` of `noise.ts`. -/
def lerpQ (a b t : ℚ) : ℚ :=
  a + (b - a) * t

/-- `ValueNoise2D.sample`: bilinear interpolation of the four lattice
corners with quintic fades. -/
def sample (perm : List ℕ) (x y frequency : ℚ) : ℚ :=
  let fx := x * frequency
  let fy := y * frequency
  let x0 := ⌊fx⌋
  let y0 := ⌊fy⌋
  let tx := fx - x0
  let ty := fy - y0
  let v00 := latticeVal perm x0 y0
  let v10 := latticeVal perm (x0 + 1) y0
  let v01 := latticeVal perm x0 (y0 + 1)
  let v11 := latticeVal perm (x0 + 1) (y0 + 1)
  let u := fade tx
  let v := fade ty
  lerpQ (lerpQ v00 v10 u) (lerpQ v01 v11 u) v

/-- `fbm2D` of `noise.ts`: octave sum normalised by the amplitude sum
(or 0 if that sum is not positive). -/
def fbm2D (perm : List ℕ) (x y : ℚ) (np : NoiseParams) (baseFreq : ℚ) : ℚ :=
  let st := (List.range np.octaves).foldl
    (fun (st : ℚ × ℚ × ℚ × ℚ) _ =>
      let amp := st.1
      let freq := st.2.1
      let sum := st.2.2.1
      let norm := st.2.2.2
      (amp * np.gain, freq * np.lacunarity, sum + sample perm x y freq * amp,
        norm + amp))
    (1/2, baseFreq, 0, 0)
  let sum := st.2.2.1
  let norm := st.2.2.2
  if 0 < norm then sum / norm else 0

/-- `warpedFbm2D` of `noise.ts`, with the default warp frequency
`baseFreq * 0.5` (the only call site, `generateHeightField`, uses the
default). -/
def warpedFbm2D (permBase permWX permWY : List ℕ) (x y : ℚ) (np : NoiseParams)
    (baseFreq warp : ℚ) : ℚ :=
  let warpFreq := baseFreq * (1/2)
  let wx := fbm2D permWX x y np warpFreq
  let wy := fbm2D permWY x y np warpFreq
  let dx := (wx - 1/2) * warp
  let dy := (wy - 1/2) * warp
  fbm2D permBase (x + dx) (y + dy) np baseFreq

/-- The raw (pre-normalisation) sample of `generateHeightField` at cell
`(x, y)`: domain-warped fBM with the three samplers seeded by XOR-ing the
world seed with the three constants of the source. -/
def rawHeight (seed : ℕ) (np : NoiseParams) (baseFreq : ℚ) (x y : ℤ) : ℚ :=
  warpedFbm2D (permTable (seed ^^^ 2654435769)) (permTable (seed ^^^ 1367130551))
    (permTable (seed ^^^ 2246822507)) (x : ℚ) (y : ℚ) np baseFreq np.warp

/-- `generateHeightField` of `noise.ts` with `islandMask` off (the worker
pins `USE_ISLAND_MASK = false`; the mask branch is dead in this deployment
and involves a real square root, so it is not modelled).  First pass: fill
raw values, tracking the running min and max exactly as the source does
(initialised to `Infinity` and `-Infinity`); second pass: normalise via
`(v - minV) * inv` with `inv = maxV > minV ? 1/(maxV-minV) : 1`. -/
def generateHeightField (size : ℕ) (seed : ℕ) (p : SimParams)
    (baseFreq : ℚ) : List JsNum :=
  let np := p.noise
  let out0 : List JsNum := List.replicate (size * size) (num 0)
  let st := (intRange 0 ((size : ℤ) - 1)).foldl (fun st (y : ℤ) =>
    (intRange 0 ((size : ℤ) - 1)).foldl (fun (st : List JsNum × JsNum × JsNum) (x : ℤ) =>
      let v := rawHeight seed np baseFreq x y
      let out := jset st.1 (y * (size : ℤ) + x) (num v)
      let minV := if jlt (num v) st.2.1 then num v else st.2.1
      let maxV := if jlt st.2.2 (num v) then num v else st.2.2
      (out, minV, maxV)) st) (out0, JsNum.inf, JsNum.ninf)
  let minV := st.2.1
  let maxV := st.2.2
  let inv := if jlt minV maxV then jdiv (num 1) (jsub maxV minV) else num 1
  (intRange 0 ((size : ℤ) - 1)).foldl (fun out (y : ℤ) =>
    (intRange 0 ((size : ℤ) - 1)).foldl (fun out (x : ℤ) =>
      let i := y * (size : ℤ) + x
      jset out i (jmul (jsub (jget out i) minV) inv)) out) st.1

/-! ## Compute orchestrator (`src/sim/worker.ts`) -/

/-- The worker's ambient state: current size, seed, params and field
buffers.  `params` and `fields` start out undefined (`none`), exactly as
the `let params: SimParams; let fields: Fields;` declarations of the
source. -/
structure WorkerState where
  size : ℕ
  seed : ℕ
  params : Option SimParams
  fields : Option Fields
deriving DecidableEq, Repr

/-- The worker's initial state (`size = 512`, `seed = 1`, nothing
allocated). -/
def initialWorkerState : WorkerState :=
  { size := 512, seed := 1, params := none, fields := none }

/-- `allocateFields` of `worker.ts`: five zero-initialised arrays of length
`n * n`. -/
def allocateFields (n : ℕ) : Fields :=
  { height := List.replicate (n * n) (num 0)
    temperature := List.replicate (n * n) (num 0)
    moisture := List.replicate (n * n) (num 0)
    rivers := List.replicate (n * n) 0
    biomes := List.replicate (n * n) 0 }

/-- `ensureSize` of `worker.ts`: (re)allocate the field buffers if absent
or if the size changed. -/
def ensureSize (st : WorkerState) (newSize : ℕ) : WorkerState :=
  match st.fields with
  | none => { st with size := newSize, fields := some (allocateFields newSize) }
  | some _ =>
      if st.size ≠ newSize then
        { st with size := newSize, fields := some (allocateFields newSize) }
      else st

/-- `DEFAULT_BASE_FREQ` of `worker.ts`. -/
def DEFAULT_BASE_FREQ : ℚ := 1 / 128

/-- `fullRecompute` of `worker.ts`: heightfield generation, full climate
derivation, river routing (progress notifications are not modelled; they
carry no data). -/
def fullRecompute (size : ℕ) (seed : ℕ) (p : SimParams) (f : Fields) : Fields :=
  let f1 := { f with height := generateHeightField size seed p DEFAULT_BASE_FREQ }
  let f2 := recomputeDerived f1 (size : ℤ) p (rectAll (size : ℤ))
  computeRivers f2 (size : ℤ) p

/-- `partialRecompute` of `worker.ts` (renamed here): climate derivation
restricted to the dirty rectangle, then river routing over the whole
grid. -/
def partRecompute (size : ℕ) (p : SimParams) (f : Fields)
    (dirty : DirtyRect) : Fields :=
  computeRivers (recomputeDerived f (size : ℤ) p dirty) (size : ℤ) p

/-- Incoming worker messages (`WorkerIn` of `protocol.ts`). -/
inductive WorkerIn where
  | init (seed : ℕ) (params : SimParams) : WorkerIn
  | recompute (params : SimParams) : WorkerIn
  | brush (x y : ℚ) (brush : Brush) : WorkerIn
deriving DecidableEq, Repr

/-- The worker's `onmessage` handler (parametrised by the radial falloff
`fall2`, see `radialAdd`).  In the source, a `brush` message arriving
before any `init`/`recompute` dereferences the undefined `fields` binding
(`fields.height`) and throws a `TypeError`; the total embedding returns an
error in that case. -/
def onMessage (fall2 : ℚ → ℚ) (st : WorkerState) :
    WorkerIn → Except String WorkerState
  | WorkerIn.init seed params =>
      let st2 := ensureSize { st with seed := seed, params := some params }
        params.size
      match st2.fields with
      | none => Except.error "unreachable: ensureSize allocates"
      | some f =>
          Except.ok { st2 with
            fields := some (fullRecompute st2.size st2.seed params f) }
  | WorkerIn.recompute params =>
      let st2 := ensureSize { st with params := some params } params.size
      match st2.fields with
      | none => Except.error "unreachable: ensureSize allocates"
      | some f =>
          Except.ok { st2 with
            fields := some (fullRecompute st2.size st2.seed params f) }
  | WorkerIn.brush x y b =>
      match st.fields, st.params with
      | some f, some p =>
          let res := applyBrush fall2 f.height f.moisture (st.size : ℤ) x y b
          let f1 := { f with height := res.1, moisture := res.2.1 }
          Except.ok { st with
            fields := some (partRecompute st.size p f1 res.2.2) }
      | _, _ =>
          Except.error "TypeError: fields is undefined (no init yet)"

/-- Run the worker on a message sequence, stopping at the first error. -/
def runWorker (fall2 : ℚ → ℚ) (st : WorkerState) :
    List WorkerIn → Except String WorkerState
  | [] => Except.ok st
  | m :: ms =>
      match onMessage fall2 st m with
      | Except.error e => Except.error e
      | Except.ok st' => runWorker fall2 st' ms

/-! ## Loop characterisation machinery -/

/-- Row-major linear index of a cell. -/
def cellIdx (size : ℤ) (c : ℤ × ℤ) : ℤ :=
  c.2 * size + c.1

/-- The cells of a rectangle in loop order (rows outer, columns inner). -/
def rectCells (r : DirtyRect) : List (ℤ × ℤ) :=
  (intRange r.y0 r.y1).flatMap (fun y => (intRange r.x0 r.x1).map (fun x => (x, y)))

theorem mem_rectCells {r : DirtyRect} {c : ℤ × ℤ} :
    c ∈ rectCells r ↔
      (r.x0 ≤ c.1 ∧ c.1 ≤ r.x1) ∧ (r.y0 ≤ c.2 ∧ c.2 ≤ r.y1) := by
  unfold rectCells
  simp only [List.mem_flatMap, List.mem_map, mem_intRange]
  constructor
  · rintro ⟨y, hy, x, hx, rfl⟩
    exact ⟨hx, hy⟩
  · rintro ⟨hx, hy⟩
    exact ⟨c.2, hy, c.1, hx, rfl⟩

theorem intRange_nodup (a b : ℤ) : (intRange a b).Nodup := by
  have haux : ∀ n : ℕ, ∀ a b : ℤ, (b + 1 - a).toNat = n → (intRange a b).Nodup := by
    intro n
    induction n with
    | zero =>
      intro a b h
      rw [intRange_eq_nil (by omega)]
      exact List.nodup_nil
    | succ m ih =>
      intro a b h
      rw [intRange_eq_cons (by omega)]
      refine List.nodup_cons.mpr ⟨fun hmem => ?_, ih (a + 1) b (by omega)⟩
      have := mem_intRange.mp hmem
      omega
  exact haux (b + 1 - a).toNat a b rfl

theorem rectCells_nodup (r : DirtyRect) : (rectCells r).Nodup := by
  unfold rectCells
  refine List.nodup_flatMap.mpr ⟨fun y _ => ?_, ?_⟩
  · exact (intRange_nodup r.x0 r.x1).map (fun x x' hxx => by
      simpa using hxx)
  · refine List.Pairwise.imp ?_ ((intRange_nodup r.y0 r.y1))
    intro y y' hyy
    intro c hc hc'
    simp only [List.mem_map] at hc hc'
    obtain ⟨x, _, rfl⟩ := hc
    obtain ⟨x', _, h⟩ := hc'
    exact hyy (by simpa using (Prod.mk.injEq .. ▸ h).2 ▸ rfl)

/-- Row-major cell indices are injective on the grid. -/
theorem cellIdx_inj {size x1 y1 x2 y2 : ℤ} (hpos : 0 < size)
    (hx1 : 0 ≤ x1) (hx1' : x1 < size) (hx2 : 0 ≤ x2) (hx2' : x2 < size)
    (h : y1 * size + x1 = y2 * size + x2) : x1 = x2 ∧ y1 = y2 := by
  have hs : (y1 - y2) * size = x2 - x1 := by ring_nf; linarith
  rcases lt_trichotomy y1 y2 with h' | h' | h'
  · exfalso
    have h1 : y1 - y2 ≤ -1 := by omega
    have h2 : (y1 - y2) * size ≤ (-1) * size :=
      mul_le_mul_of_nonneg_right h1 hpos.le
    linarith
  · constructor
    · have h0 : (y1 - y2) * size = 0 := by rw [h']; ring
      omega
    · exact h'
  · exfalso
    have h1 : (1 : ℤ) ≤ y1 - y2 := by omega
    have h2 : (1 : ℤ) * size ≤ (y1 - y2) * size :=
      mul_le_mul_of_nonneg_right h1 hpos.le
    linarith

/-- One step of a per-cell fold over a JS `Float32Array`: either leave the
array unchanged (`none`) or overwrite the cell with a value computed from
its current content (`some`). -/
def cellStep (size : ℤ) (upd : ℤ → ℤ → JsNum → Option JsNum)
    (f : List JsNum) (c : ℤ × ℤ) : List JsNum :=
  match upd c.1 c.2 (jget f (cellIdx size c)) with
  | none => f
  | some v => jset f (cellIdx size c) v

/-- Generic per-cell fold over a JS `Float32Array`. -/
def cellFold (size : ℤ) (upd : ℤ → ℤ → JsNum → Option JsNum)
    (cells : List (ℤ × ℤ)) (f0 : List JsNum) : List JsNum :=
  cells.foldl (cellStep size upd) f0

theorem length_cellStep (size : ℤ) (upd : ℤ → ℤ → JsNum → Option JsNum)
    (f : List JsNum) (c : ℤ × ℤ) :
    (cellStep size upd f c).length = f.length := by
  unfold cellStep
  split
  · rfl
  · exact length_jset _ _ _

theorem jget_cellStep_ne (size : ℤ) (upd : ℤ → ℤ → JsNum → Option JsNum)
    (f : List JsNum) (c : ℤ × ℤ) (i : ℤ) (h : cellIdx size c ≠ i) :
    jget (cellStep size upd f c) i = jget f i := by
  unfold cellStep
  split
  · rfl
  · exact jget_jset_ne _ _ _ _ h

theorem jget_cellStep_self (size : ℤ) (upd : ℤ → ℤ → JsNum → Option JsNum)
    (f : List JsNum) (c : ℤ × ℤ) (h0 : 0 ≤ cellIdx size c)
    (hlen : (cellIdx size c).toNat < f.length) :
    jget (cellStep size upd f c) (cellIdx size c) =
      match upd c.1 c.2 (jget f (cellIdx size c)) with
      | none => jget f (cellIdx size c)
      | some v => v := by
  unfold cellStep
  rcases h : upd c.1 c.2 (jget f (cellIdx size c)) with _ | v
  · simp [h]
  · simp [h, jget_jset_self _ _ _ h0 hlen]

theorem length_cellFold (size : ℤ) (upd : ℤ → ℤ → JsNum → Option JsNum)
    (cells : List (ℤ × ℤ)) (f0 : List JsNum) :
    (cellFold size upd cells f0).length = f0.length := by
  induction cells generalizing f0 with
  | nil => rfl
  | cons c cs ih =>
    show (cellFold size upd cs (cellStep size upd f0 c)).length = _
    rw [ih, length_cellStep]

/-- The main characterisation: what a `cellFold` leaves at a given in-bounds
cell, provided the visited cells are distinct and no other visited cell
aliases the inspected index. -/
theorem jget_cellFold (size : ℤ) (upd : ℤ → ℤ → JsNum → Option JsNum)
    (cells : List (ℤ × ℤ)) (f0 : List JsNum) (x y : ℤ)
    (hnd : cells.Nodup)
    (hinj : ∀ c ∈ cells, cellIdx size c = cellIdx size (x, y) → c = (x, y))
    (h0 : 0 ≤ cellIdx size (x, y))
    (hlen : (cellIdx size (x, y)).toNat < f0.length) :
    jget (cellFold size upd cells f0) (cellIdx size (x, y)) =
      if (x, y) ∈ cells then
        match upd x y (jget f0 (cellIdx size (x, y))) with
        | none => jget f0 (cellIdx size (x, y))
        | some v => v
      else jget f0 (cellIdx size (x, y)) := by
  induction cells generalizing f0 with
  | nil => simp [cellFold]
  | cons c cs ih =>
    have hni := (List.nodup_cons.mp hnd).1
    have hnd' := (List.nodup_cons.mp hnd).2
    have hinj' : ∀ c' ∈ cs, cellIdx size c' = cellIdx size (x, y) → c' = (x, y) :=
      fun c' h => hinj c' (List.mem_cons_of_mem _ h)
    have hlen1 : (cellStep size upd f0 c).length = f0.length :=
      length_cellStep _ _ _ _
    rw [show cellFold size upd (c :: cs) f0 =
      cellFold size upd cs (cellStep size upd f0 c) from rfl]
    rw [ih (cellStep size upd f0 c) hnd' hinj' (by rw [hlen1]; exact hlen)]
    by_cases hc : c = (x, y)
    · have hxy_notin : (x, y) ∉ cs := hc ▸ hni
      rw [if_neg hxy_notin,
        if_pos (show (x, y) ∈ c :: cs from hc ▸ List.mem_cons_self c cs)]
      rw [hc, jget_cellStep_self size upd f0 (x, y) h0 hlen]
    · have hidx : cellIdx size c ≠ cellIdx size (x, y) := fun he =>
        hc (hinj c (List.mem_cons_self c cs) he)
      rw [jget_cellStep_ne size upd f0 c _ hidx]
      have hmem : ((x, y) ∈ c :: cs) ↔ ((x, y) ∈ cs) := by
        constructor
        · intro hh
          rcases List.mem_cons.mp hh with hh | hh
          · exact absurd hh.symm hc
          · exact hh
        · exact List.mem_cons_of_mem c
      by_cases hin : (x, y) ∈ cs
      · rw [if_pos hin, if_pos (hmem.mpr hin)]
      · rw [if_neg hin, if_neg (fun hh => hin (hmem.mp hh))]

theorem bget_bset_self (f : List ℕ) (i : ℤ) (v : ℕ)
    (h0 : 0 ≤ i) (hl : i.toNat < f.length) : bget (bset f i v) i = v := by
  unfold bget bset
  simp [h0, List.getElem?_set_self hl]

theorem bget_bset_ne (f : List ℕ) (i j : ℤ) (v : ℕ)
    (h : i ≠ j) : bget (bset f i v) j = bget f j := by
  unfold bget bset
  by_cases h0 : 0 ≤ i
  · by_cases h1 : 0 ≤ j
    · have hne : i.toNat ≠ j.toNat := by omega
      simp [h0, h1, List.getElem?_set_ne hne]
    · simp [h0, h1]
  · simp [h0]

/-- Per-cell pure-write fold over a JS `Uint8Array`. -/
def cellFoldB (size : ℤ) (g : ℤ → ℤ → ℕ) (cells : List (ℤ × ℤ))
    (f0 : List ℕ) : List ℕ :=
  cells.foldl (fun f c => bset f (cellIdx size c) (g c.1 c.2)) f0

theorem length_cellFoldB (size : ℤ) (g : ℤ → ℤ → ℕ) (cells : List (ℤ × ℤ))
    (f0 : List ℕ) : (cellFoldB size g cells f0).length = f0.length := by
  induction cells generalizing f0 with
  | nil => rfl
  | cons c cs ih =>
    show (cellFoldB size g cs _).length = _
    rw [ih, length_bset]

theorem bget_cellFoldB (size : ℤ) (g : ℤ → ℤ → ℕ) (cells : List (ℤ × ℤ))
    (f0 : List ℕ) (x y : ℤ)
    (hinj : ∀ c ∈ cells, cellIdx size c = cellIdx size (x, y) → c = (x, y))
    (h0 : 0 ≤ cellIdx size (x, y))
    (hlen : (cellIdx size (x, y)).toNat < f0.length) :
    bget (cellFoldB size g cells f0) (cellIdx size (x, y)) =
      if (x, y) ∈ cells then g x y else bget f0 (cellIdx size (x, y)) := by
  induction cells generalizing f0 with
  | nil => simp [cellFoldB]
  | cons c cs ih =>
    have hinj' : ∀ c' ∈ cs, cellIdx size c' = cellIdx size (x, y) → c' = (x, y) :=
      fun c' h => hinj c' (List.mem_cons_of_mem _ h)
    rw [show cellFoldB size g (c :: cs) f0 =
      cellFoldB size g cs (bset f0 (cellIdx size c) (g c.1 c.2)) from rfl]
    rw [ih _ hinj' (by rw [length_bset]; exact hlen)]
    by_cases hin : (x, y) ∈ cs
    · rw [if_pos hin, if_pos (List.mem_cons_of_mem _ hin)]
    · rw [if_neg hin]
      by_cases hc : c = (x, y)
      · rw [if_pos (hc ▸ List.mem_cons_self c cs)]
        rw [hc]
        exact bget_bset_self _ _ _ h0 hlen
      · have hidx : cellIdx size c ≠ cellIdx size (x, y) := fun he =>
          hc (hinj c (List.mem_cons_self c cs) he)
        rw [if_neg (by
          intro hh
          rcases List.mem_cons.mp hh with hh | hh
          · exact hc hh.symm
          · exact hin hh)]
        exact bget_bset_ne _ _ _ _ hidx

/-- Pure-write fold over a list of linear indices (byte array). -/
theorem bget_linearFold (g : ℤ → ℕ) (idxs : List ℤ) (f0 : List ℕ)
    (hnd : idxs.Nodup) (i : ℤ) (h0 : 0 ≤ i) (hlen : i.toNat < f0.length) :
    bget (idxs.foldl (fun o j => bset o j (g j)) f0) i =
      if i ∈ idxs then g i else bget f0 i := by
  induction idxs generalizing f0 with
  | nil => simp
  | cons j js ih =>
    have hnd' := (List.nodup_cons.mp hnd).2
    rw [show (j :: js).foldl (fun o j => bset o j (g j)) f0 =
      js.foldl (fun o j => bset o j (g j)) (bset f0 j (g j)) from rfl]
    rw [ih _ hnd' (by rw [length_bset]; exact hlen)]
    by_cases hin : i ∈ js
    · rw [if_pos hin, if_pos (List.mem_cons_of_mem _ hin)]
    · rw [if_neg hin]
      by_cases hij : j = i
      · rw [if_pos (hij ▸ List.mem_cons_self j js), hij]
        exact bget_bset_self _ _ _ h0 hlen
      · rw [if_neg (by
          intro hh
          rcases List.mem_cons.mp hh with hh | hh
          · exact hij hh.symm
          · exact hin hh)]
        exact bget_bset_ne _ _ _ _ hij

theorem length_linearFold (g : ℤ → ℕ) (idxs : List ℤ) (f0 : List ℕ) :
    (idxs.foldl (fun o j => bset o j (g j)) f0).length = f0.length := by
  induction idxs generalizing f0 with
  | nil => rfl
  | cons j js ih =>
    rw [show (j :: js).foldl (fun o j => bset o j (g j)) f0 =
      js.foldl (fun o j => bset o j (g j)) (bset f0 j (g j)) from rfl]
    rw [ih, length_bset]

/-- A `cellFold` over the cells of a rectangle is the nested row/column
loop of the sources. -/
theorem cellFold_rect (size : ℤ) (upd : ℤ → ℤ → JsNum → Option JsNum)
    (r : DirtyRect) (f0 : List JsNum) :
    cellFold size upd (rectCells r) f0 =
      (intRange r.y0 r.y1).foldl (fun f y =>
        (intRange r.x0 r.x1).foldl (fun f x => cellStep size upd f (x, y)) f) f0 := by
  unfold rectCells cellFold
  generalize intRange r.y0 r.y1 = ys
  induction ys generalizing f0 with
  | nil => rfl
  | cons y ys ih =>
    rw [List.flatMap_cons, List.foldl_append, List.foldl_map]
    exact ih _

theorem cellFoldB_rect (size : ℤ) (g : ℤ → ℤ → ℕ)
    (r : DirtyRect) (f0 : List ℕ) :
    cellFoldB size g (rectCells r) f0 =
      (intRange r.y0 r.y1).foldl (fun f y =>
        (intRange r.x0 r.x1).foldl (fun f x =>
          bset f (cellIdx size (x, y)) (g x y)) f) f0 := by
  unfold rectCells cellFoldB
  generalize intRange r.y0 r.y1 = ys
  induction ys generalizing f0 with
  | nil => rfl
  | cons y ys ih =>
    rw [List.flatMap_cons, List.foldl_append, List.foldl_map]
    exact ih _

/-- Injectivity of cell indices for cells of a grid-contained rectangle. -/
theorem rectCells_inj (size : ℤ) (hpos : 0 < size) (r : DirtyRect)
    (hrx0 : 0 ≤ r.x0) (hrx1 : r.x1 ≤ size - 1)
    (x y : ℤ) (hx : 0 ≤ x) (hx' : x < size) :
    ∀ c ∈ rectCells r, cellIdx size c = cellIdx size (x, y) → c = (x, y) := by
  intro c hc he
  have hb := mem_rectCells.mp hc
  obtain ⟨cx, cy⟩ := c
  have hinj := cellIdx_inj hpos (show 0 ≤ cx by exact le_trans hrx0 hb.1.1)
    (show cx < size by omega) hx hx' he
  simp only [Prod.mk.injEq]
  exact hinj

/-- What a rectangle `cellFold` leaves at an in-grid cell. -/
theorem jget_cellFold_rect (size : ℤ) (hpos : 0 < size)
    (upd : ℤ → ℤ → JsNum → Option JsNum) (r : DirtyRect) (f0 : List JsNum)
    (hrx0 : 0 ≤ r.x0) (hrx1 : r.x1 ≤ size - 1)
    (x y : ℤ) (hx : 0 ≤ x) (hx' : x < size) (hy : 0 ≤ y) (hy' : y < size)
    (hlen : (y * size + x).toNat < f0.length) :
    jget (cellFold size upd (rectCells r) f0) (y * size + x) =
      if r.x0 ≤ x ∧ x ≤ r.x1 ∧ r.y0 ≤ y ∧ y ≤ r.y1 then
        match upd x y (jget f0 (y * size + x)) with
        | none => jget f0 (y * size + x)
        | some v => v
      else jget f0 (y * size + x) := by
  have h0 : 0 ≤ cellIdx size (x, y) := by
    have h1 : 0 ≤ y * size := mul_nonneg hy hpos.le
    show 0 ≤ y * size + x
    omega
  have hthis := jget_cellFold size upd (rectCells r) f0 x y (rectCells_nodup r)
    (rectCells_inj size hpos r hrx0 hrx1 x y hx hx') h0
    (show (cellIdx size (x, y)).toNat < f0.length from hlen)
  rw [show cellIdx size (x, y) = y * size + x from rfl] at hthis
  rw [hthis]
  by_cases hmem : (x, y) ∈ rectCells r
  · have hb := mem_rectCells.mp hmem
    rw [if_pos hmem, if_pos ⟨hb.1.1, hb.1.2, hb.2.1, hb.2.2⟩]
  · rw [if_neg hmem, if_neg (fun hb =>
      hmem (mem_rectCells.mpr ⟨⟨hb.1, hb.2.1⟩, ⟨hb.2.2.1, hb.2.2.2⟩⟩))]

/-- What a rectangle byte `cellFoldB` leaves at an in-grid cell. -/
theorem bget_cellFoldB_rect (size : ℤ) (hpos : 0 < size)
    (g : ℤ → ℤ → ℕ) (r : DirtyRect) (f0 : List ℕ)
    (hrx0 : 0 ≤ r.x0) (hrx1 : r.x1 ≤ size - 1)
    (x y : ℤ) (hx : 0 ≤ x) (hx' : x < size) (hy : 0 ≤ y) (hy' : y < size)
    (hlen : (y * size + x).toNat < f0.length) :
    bget (cellFoldB size g (rectCells r) f0) (y * size + x) =
      if r.x0 ≤ x ∧ x ≤ r.x1 ∧ r.y0 ≤ y ∧ y ≤ r.y1 then g x y
      else bget f0 (y * size + x) := by
  have h0 : 0 ≤ cellIdx size (x, y) := by
    have h1 : 0 ≤ y * size := mul_nonneg hy hpos.le
    show 0 ≤ y * size + x
    omega
  have hthis := bget_cellFoldB size g (rectCells r) f0 x y
    (rectCells_inj size hpos r hrx0 hrx1 x y hx hx') h0
    (show (cellIdx size (x, y)).toNat < f0.length from hlen)
  rw [show cellIdx size (x, y) = y * size + x from rfl] at hthis
  rw [hthis]
  by_cases hmem : (x, y) ∈ rectCells r
  · have hb := mem_rectCells.mp hmem
    rw [if_pos hmem, if_pos ⟨hb.1.1, hb.1.2, hb.2.1, hb.2.2⟩]
  · rw [if_neg hmem, if_neg (fun hb =>
      hmem (mem_rectCells.mpr ⟨⟨hb.1, hb.2.1⟩, ⟨hb.2.2.1, hb.2.2.2⟩⟩))]

/-! ## Per-cell values of the climate deriver and the brush editor -/

/-- The temperature value written at cell `(x, y)`. -/
def tempAt (height : List JsNum) (size : ℤ) (tempLapse : ℚ) (x y : ℤ) : JsNum :=
  let lat := jdiv (num (y : ℚ)) (num ((size : ℚ) - 1))
  let pole := jmul (jabs (jsub lat (num 0.5))) (num 2)
  clamp01J (jsub (jsub (num 1) (jmul (num tempLapse) (jget height (y * size + x))))
    (jmul (num 0.6) pole))

/-- The moisture value written at cell `(x, y)`. -/
def moistAt (height : List JsNum) (size : ℤ) (moistureShift : ℚ) (x y : ℤ) : JsNum :=
  let i := y * size + x
  let h := jget height i
  let m := clamp01J (jadd (jsub (num 1) h) (num moistureShift))
  let left := if 0 < x then jget height (y * size + (x - 1)) else h
  let right := if x < size - 1 then jget height (y * size + (x + 1)) else h
  let slope := jsub right left
  clamp01J (jsub (jadd m (jmul (num 0.15) (jmax (num 0) slope)))
    (jmul (num 0.10) (jmax (num 0) (jsub (num 0) slope))))

/-- The biome value written at cell `(x, y)`. -/
def classifyAt (height temperature moisture : List JsNum) (size : ℤ)
    (sea : ℚ) (x y : ℤ) : ℕ :=
  biomeAt sea (jget height (y * size + x)) (jget temperature (y * size + x))
    (jget moisture (y * size + x))

theorem computeTemperature_eq (height : List JsNum) (size : ℤ) (lapse : ℚ)
    (out : List JsNum) (r : DirtyRect) :
    computeTemperature height size lapse out r =
      cellFold size (fun x y _ => some (tempAt height size lapse x y))
        (rectCells r) out := by
  rw [cellFold_rect]
  rfl

theorem computeMoisture_eq (height : List JsNum) (size : ℤ) (shift : ℚ)
    (out : List JsNum) (r : DirtyRect) :
    computeMoisture height size shift out r =
      cellFold size (fun x y _ => some (moistAt height size shift x y))
        (rectCells r) out := by
  rw [cellFold_rect]
  rfl

theorem classifyBiomes_eq (height temperature moisture : List JsNum)
    (size : ℤ) (sea : ℚ) (out : List ℕ) (r : DirtyRect) :
    classifyBiomes height temperature moisture size sea out r =
      cellFoldB size (classifyAt height temperature moisture size sea)
        (rectCells r) out := by
  rw [cellFoldB_rect]
  rfl

theorem clampRegion_eq (field : List JsNum) (size : ℤ) (r : DirtyRect)
    (lo hi : ℚ) :
    clampRegion field size r lo hi =
      cellFold size (fun _ _ cur => some (jclampNum cur lo hi))
        (rectCells r) field := by
  rw [cellFold_rect]
  rfl

/-- Squared distance from the brush centre to the cell `(x, y)`. -/
def distSq (cx cy : ℚ) (x y : ℤ) : ℚ :=
  ((x : ℚ) - cx) * ((x : ℚ) - cx) + ((y : ℚ) - cy) * ((y : ℚ) - cy)

/-- The iteration rectangle of `radialAdd` (its own loop bounds, tighter
than `strokeBounds`). -/
def radialRect (size : ℤ) (cx cy radius : ℚ) : DirtyRect :=
  { x0 := max 0 ⌊cx - radius⌋
    y0 := max 0 ⌊cy - radius⌋
    x1 := min (size - 1) ⌈cx + radius⌉
    y1 := min (size - 1) ⌈cy + radius⌉ }

/-- The per-cell update of `radialAdd`. -/
def radialUpd (fall2 : ℚ → ℚ) (cx cy radius strength : ℚ)
    (x y : ℤ) (cur : JsNum) : Option JsNum :=
  if radius * radius < distSq cx cy x y then none
  else some (jadd cur (num (strength * fall2 (distSq cx cy x y))))

theorem radialAdd_eq (fall2 : ℚ → ℚ) (field : List JsNum) (size : ℤ)
    (cx cy radius strength : ℚ) :
    radialAdd fall2 field size cx cy radius strength =
      cellFold size (radialUpd fall2 cx cy radius strength)
        (rectCells (radialRect size cx cy radius)) field := by
  rw [cellFold_rect]
  unfold radialAdd radialRect
  dsimp only
  apply List.foldl_ext
  intro f y hy
  apply List.foldl_ext
  intro f' x hx
  dsimp only
  unfold cellStep radialUpd distSq
  by_cases hd : radius * radius <
    ((x : ℚ) - cx) * ((x : ℚ) - cx) + ((y : ℚ) - cy) * ((y : ℚ) - cy)
  · simp only [if_pos hd]
  · simp only [if_neg hd]
    rfl

theorem length_computeTemperature (height : List JsNum) (size : ℤ) (lapse : ℚ)
    (out : List JsNum) (r : DirtyRect) :
    (computeTemperature height size lapse out r).length = out.length := by
  rw [computeTemperature_eq]
  exact length_cellFold _ _ _ _

theorem length_computeMoisture (height : List JsNum) (size : ℤ) (shift : ℚ)
    (out : List JsNum) (r : DirtyRect) :
    (computeMoisture height size shift out r).length = out.length := by
  rw [computeMoisture_eq]
  exact length_cellFold _ _ _ _

theorem length_classifyBiomes (height temperature moisture : List JsNum)
    (size : ℤ) (sea : ℚ) (out : List ℕ) (r : DirtyRect) :
    (classifyBiomes height temperature moisture size sea out r).length
      = out.length := by
  rw [classifyBiomes_eq]
  exact length_cellFoldB _ _ _ _

theorem length_clampRegion (field : List JsNum) (size : ℤ) (r : DirtyRect)
    (lo hi : ℚ) :
    (clampRegion field size r lo hi).length = field.length := by
  rw [clampRegion_eq]
  exact length_cellFold _ _ _ _

theorem length_radialAdd (fall2 : ℚ → ℚ) (field : List JsNum) (size : ℤ)
    (cx cy radius strength : ℚ) :
    (radialAdd fall2 field size cx cy radius strength).length = field.length := by
  rw [radialAdd_eq]
  exact length_cellFold _ _ _ _

theorem jget_computeTemperature (height : List JsNum) (size : ℤ) (lapse : ℚ)
    (out : List JsNum) (r : DirtyRect) (hpos : 0 < size)
    (hrx0 : 0 ≤ r.x0) (hrx1 : r.x1 ≤ size - 1)
    (x y : ℤ) (hx : 0 ≤ x) (hx' : x < size) (hy : 0 ≤ y) (hy' : y < size)
    (hlen : (y * size + x).toNat < out.length) :
    jget (computeTemperature height size lapse out r) (y * size + x) =
      if r.x0 ≤ x ∧ x ≤ r.x1 ∧ r.y0 ≤ y ∧ y ≤ r.y1 then
        tempAt height size lapse x y
      else jget out (y * size + x) := by
  rw [computeTemperature_eq,
    jget_cellFold_rect size hpos _ r out hrx0 hrx1 x y hx hx' hy hy' hlen]

theorem jget_computeMoisture (height : List JsNum) (size : ℤ) (shift : ℚ)
    (out : List JsNum) (r : DirtyRect) (hpos : 0 < size)
    (hrx0 : 0 ≤ r.x0) (hrx1 : r.x1 ≤ size - 1)
    (x y : ℤ) (hx : 0 ≤ x) (hx' : x < size) (hy : 0 ≤ y) (hy' : y < size)
    (hlen : (y * size + x).toNat < out.length) :
    jget (computeMoisture height size shift out r) (y * size + x) =
      if r.x0 ≤ x ∧ x ≤ r.x1 ∧ r.y0 ≤ y ∧ y ≤ r.y1 then
        moistAt height size shift x y
      else jget out (y * size + x) := by
  rw [computeMoisture_eq,
    jget_cellFold_rect size hpos _ r out hrx0 hrx1 x y hx hx' hy hy' hlen]

theorem bget_classifyBiomes (height temperature moisture : List JsNum)
    (size : ℤ) (sea : ℚ) (out : List ℕ) (r : DirtyRect) (hpos : 0 < size)
    (hrx0 : 0 ≤ r.x0) (hrx1 : r.x1 ≤ size - 1)
    (x y : ℤ) (hx : 0 ≤ x) (hx' : x < size) (hy : 0 ≤ y) (hy' : y < size)
    (hlen : (y * size + x).toNat < out.length) :
    bget (classifyBiomes height temperature moisture size sea out r)
      (y * size + x) =
      if r.x0 ≤ x ∧ x ≤ r.x1 ∧ r.y0 ≤ y ∧ y ≤ r.y1 then
        classifyAt height temperature moisture size sea x y
      else bget out (y * size + x) := by
  rw [classifyBiomes_eq,
    bget_cellFoldB_rect size hpos _ r out hrx0 hrx1 x y hx hx' hy hy' hlen]

theorem jget_clampRegion (field : List JsNum) (size : ℤ) (r : DirtyRect)
    (lo hi : ℚ) (hpos : 0 < size)
    (hrx0 : 0 ≤ r.x0) (hrx1 : r.x1 ≤ size - 1)
    (x y : ℤ) (hx : 0 ≤ x) (hx' : x < size) (hy : 0 ≤ y) (hy' : y < size)
    (hlen : (y * size + x).toNat < field.length) :
    jget (clampRegion field size r lo hi) (y * size + x) =
      if r.x0 ≤ x ∧ x ≤ r.x1 ∧ r.y0 ≤ y ∧ y ≤ r.y1 then
        jclampNum (jget field (y * size + x)) lo hi
      else jget field (y * size + x) := by
  rw [clampRegion_eq,
    jget_cellFold_rect size hpos _ r field hrx0 hrx1 x y hx hx' hy hy' hlen]

theorem jget_radialAdd (fall2 : ℚ → ℚ) (field : List JsNum) (size : ℤ)
    (cx cy radius strength : ℚ) (hpos : 0 < size)
    (x y : ℤ) (hx : 0 ≤ x) (hx' : x < size) (hy : 0 ≤ y) (hy' : y < size)
    (hlen : (y * size + x).toNat < field.length) :
    jget (radialAdd fall2 field size cx cy radius strength) (y * size + x) =
      if ((radialRect size cx cy radius).x0 ≤ x ∧ x ≤ (radialRect size cx cy radius).x1 ∧
          (radialRect size cx cy radius).y0 ≤ y ∧ y ≤ (radialRect size cx cy radius).y1) ∧
          ¬ (radius * radius < distSq cx cy x y) then
        jadd (jget field (y * size + x)) (num (strength * fall2 (distSq cx cy x y)))
      else jget field (y * size + x) := by
  rw [radialAdd_eq,
    jget_cellFold_rect size hpos _ (radialRect size cx cy radius) field
      (le_max_left 0 _) (min_le_left _ _) x y hx hx' hy hy' hlen]
  unfold radialUpd
  by_cases hin : (radialRect size cx cy radius).x0 ≤ x ∧ x ≤ (radialRect size cx cy radius).x1 ∧
      (radialRect size cx cy radius).y0 ≤ y ∧ y ≤ (radialRect size cx cy radius).y1
  · rw [if_pos hin]
    by_cases hd : radius * radius < distSq cx cy x y
    · simp only [if_pos hd]
      exact (if_neg (fun hc => hc.2 hd)).symm
    · simp only [if_neg hd]
      exact (if_pos ⟨hin, hd⟩).symm
  · rw [if_neg hin]
    exact (if_neg (fun hc => hin hc.1)).symm

/-! ## Arithmetic on finite values -/

theorem jadd_num (a b : ℚ) : jadd (num a) (num b) = num (a + b) := rfl

theorem jsub_num (a b : ℚ) : jsub (num a) (num b) = num (a - b) := rfl

theorem jmul_num (a b : ℚ) : jmul (num a) (num b) = num (a * b) := rfl

theorem jabs_num (a : ℚ) : jabs (num a) = num |a| := rfl

theorem jlt_num (a b : ℚ) : jlt (num a) (num b) = decide (a < b) := rfl

theorem jle_num (a b : ℚ) : jle (num a) (num b) = decide (a ≤ b) := rfl

theorem jmax_num (a b : ℚ) : jmax (num a) (num b) = num (max a b) := by
  unfold jmax jlt
  rcases le_or_lt b a with h | h
  · simp [not_lt.mpr h, max_eq_left h]
  · simp [h, max_eq_right h.le]

theorem jdiv_num (a b : ℚ) (hb : b ≠ 0) : jdiv (num a) (num b) = num (a / b) := by
  unfold jdiv
  simp [hb]

/-- `clamp01` on a finite value. -/
theorem clamp01J_num (q : ℚ) : clamp01J (num q) = num (clamp01Q q) := by
  unfold clamp01J clamp01Q jlt
  rcases lt_trichotomy q 0 with h | h | h
  · simp [h]
  · simp [h, show ¬ (1:ℚ) < 0 by norm_num]
  · rcases lt_or_le 1 q with h1 | h1
    · simp [not_lt.mpr h.le, h1]
    · simp [not_lt.mpr h.le, not_lt.mpr h1]

theorem clamp01Q_nonneg (q : ℚ) : 0 ≤ clamp01Q q := by
  unfold clamp01Q
  split_ifs with h1 h2
  · rfl
  · norm_num
  · exact not_lt.mp h1

theorem clamp01Q_le_one (q : ℚ) : clamp01Q q ≤ 1 := by
  unfold clamp01Q
  split_ifs with h1 h2
  · norm_num
  · rfl
  · exact not_lt.mp h2

theorem jclampNum_num (q lo hi : ℚ) :
    jclampNum (num q) lo hi =
      num (if q < lo then lo else if hi < q then hi else q) := by
  unfold jclampNum jlt
  split_ifs with h1 h2 <;> simp_all

/-! ## Claims -/

set_option maxRecDepth 10000

/-- **C1** — code bug.  The spec says the smooth brush blends each cell of
the affected rectangle with its edge-clamped separable box-blur mean and
leaves every height value finite in `[0,1]`.  In the code, the vertical pass
of `smoothRegion` clamps its prime-loop row index against the *grid* range
instead of the rectangle (`clamp(y, 0, size-1) - y0`), so whenever the dirty
rectangle has `y0 > 0` it reads the temporary buffer at negative indices;
the read yields `undefined`, the running sum becomes NaN, the blend writes
NaN and `clampRegion` keeps NaN.  Concretely: size 9, uniform height `1/2`,
smooth stamp of radius 1, strength `1/2` at the in-grid centre `(4,4)`
(dirty rectangle `[1..7]²`) leaves NaN at cell `(1,1)` — not a value in
`[0,1]`, and not the claimed blur blend. -/
theorem smooth_brush_writes_nan_C1 :
    jget (applyBrush (fun _ => 0) (List.replicate 81 (num (1/2)))
      (List.replicate 81 (num 0)) 9 4 4
      { kind := BrushKind.smooth, radius := 1, strength := 1/2 }).1 10 =
      JsNum.nan := by
  with_unfolding_all rfl

/-- The moisture formula exactly as the spec states it: a *single* clamp
applied to the whole sum `1 − h + shift + 0.15·max(0,slope) −
0.10·max(0,−slope)`.  (Stated from the spec's words, for comparison with
the source's `computeMoisture`.) -/
def moistureSpecFormula (h shift slope : ℚ) : ℚ :=
  clamp01Q (1 - h + shift + 0.15 * max 0 slope - 0.10 * max 0 (-slope))

/-- **C2** — counterexample.  On the height row `[0, 1, 1]` (size 3) with
`moistureShift = -1/2`, cell `(1,0)` has `h = 1` and eastward slope `1`;
the code clamps the base `1 - 1 - 1/2` to `0` *before* adding the
rain-shadow bonus and writes `3/20`, while the single-clamp formula of the
claim gives `0`. -/
theorem moisture_single_clamp_cex_C2 :
    jget (computeMoisture
      ([num 0, num 1, num 1] ++ List.replicate 6 (num 0)) 3 (-(1/2))
      (List.replicate 9 (num 0)) (rectAll 3)) 1 ≠
      num (moistureSpecFormula 1 (-(1/2)) 1) := by
  with_unfolding_all decide

/-- **C2** — amended.  For every grid with `size ≥ 1`, every height field,
and every cell `(x,y)` of the processed rectangle, the Climate Deriver
writes `moisture[y·size+x] = clamp01(clamp01(1 − height + moistureShift)
+ 0.15·max(0, eastwardSlope) − 0.10·max(0, −eastwardSlope))` — the base
term is clamped on its own and the rain-shadow-corrected sum is clamped
again (two clamps, not one) — where `eastwardSlope` is the difference
between the east and west neighbor heights and an edge cell uses its own
height for the missing neighbor. -/
theorem moisture_formula_C2 (height : List JsNum) (size : ℤ) (shift : ℚ)
    (out : List JsNum) (r : DirtyRect) (hpos : 0 < size)
    (hrx0 : 0 ≤ r.x0) (hrx1 : r.x1 ≤ size - 1)
    (hry0 : 0 ≤ r.y0) (hry1 : r.y1 ≤ size - 1)
    (x y : ℤ) (hxr : r.x0 ≤ x) (hxr' : x ≤ r.x1)
    (hyr : r.y0 ≤ y) (hyr' : y ≤ r.y1)
    (q ql qr : ℚ)
    (hq : jget height (y * size + x) = num q)
    (hleft : (if 0 < x then jget height (y * size + (x - 1))
      else jget height (y * size + x)) = num ql)
    (hright : (if x < size - 1 then jget height (y * size + (x + 1))
      else jget height (y * size + x)) = num qr)
    (hlen : (y * size + x).toNat < out.length) :
    jget (computeMoisture height size shift out r) (y * size + x) =
      num (clamp01Q (clamp01Q (1 - q + shift)
        + 0.15 * max 0 (qr - ql) - 0.10 * max 0 (-(qr - ql)))) := by
  rw [jget_computeMoisture height size shift out r hpos hrx0 hrx1 x y
    (by omega) (by omega) (by omega) (by omega) hlen,
    if_pos ⟨hxr, hxr', hyr, hyr'⟩]
  simp only [moistAt]
  rw [hq] at hleft hright ⊢
  rw [hleft, hright]
  simp only [jsub_num, jadd_num, jmul_num, jmax_num, clamp01J_num, zero_sub]

/-- **C3** — counterexample.  At grid size 1 the temperature pass computes
`lat = y/(size−1) = 0/0 = NaN`; NaN propagates through the pole factor and
`clamp01` keeps it, so the single cell of the grid receives NaN — not a
value in `[0,1]`. -/
theorem temperature_nan_at_size_one_cex_C3 :
    jget (computeTemperature [num (1/2)] 1 (1/2) [num 0] (rectAll 1)) 0 =
      JsNum.nan := by
  with_unfolding_all rfl

/-- **C3** — amended.  For every grid with `size ≥ 2` and every cell `(x,y)`
of the processed rectangle with a finite height value, the Climate Deriver
writes `temperature[y·size+x] = clamp01(1 − tempLapse·height −
0.6·poleFactor(y))` with `poleFactor(y) = |y/(size−1) − 0.5|·2`, and this
written value lies in `[0,1]` and is never NaN.  (At `size = 1` the code
divides `0/0` and writes NaN — see the counterexample.) -/
theorem temperature_formula_C3 (height : List JsNum) (size : ℤ) (lapse : ℚ)
    (out : List JsNum) (r : DirtyRect) (hsize : 2 ≤ size)
    (hrx0 : 0 ≤ r.x0) (hrx1 : r.x1 ≤ size - 1)
    (hry0 : 0 ≤ r.y0) (hry1 : r.y1 ≤ size - 1)
    (x y : ℤ) (hxr : r.x0 ≤ x) (hxr' : x ≤ r.x1)
    (hyr : r.y0 ≤ y) (hyr' : y ≤ r.y1)
    (q : ℚ) (hq : jget height (y * size + x) = num q)
    (hlen : (y * size + x).toNat < out.length) :
    jget (computeTemperature height size lapse out r) (y * size + x) =
      num (clamp01Q (1 - lapse * q -
        0.6 * (|(y : ℚ) / ((size : ℚ) - 1) - 0.5| * 2))) ∧
    0 ≤ clamp01Q (1 - lapse * q -
        0.6 * (|(y : ℚ) / ((size : ℚ) - 1) - 0.5| * 2)) ∧
    clamp01Q (1 - lapse * q -
        0.6 * (|(y : ℚ) / ((size : ℚ) - 1) - 0.5| * 2)) ≤ 1 := by
  have hden : ((size : ℚ) - 1) ≠ 0 := by
    have h2 : (2 : ℚ) ≤ (size : ℚ) := by exact_mod_cast hsize
    linarith
  refine ⟨?_, clamp01Q_nonneg _, clamp01Q_le_one _⟩
  rw [jget_computeTemperature height size lapse out r (by omega) hrx0 hrx1 x y
    (by omega) (by omega) (by omega) (by omega) hlen,
    if_pos ⟨hxr, hxr', hyr, hyr'⟩]
  simp only [tempAt]
  rw [hq, jdiv_num _ _ hden]
  simp only [jsub_num, jmul_num, jabs_num, clamp01J_num]

/-- **C10** — confirmed.  A `brush` request with no preceding `init` finds
the worker's `fields` binding unallocated (in the source this dereferences
`undefined` and throws); the total embedding returns an error, not a field
set, for every such request sequence. -/
theorem brush_before_init_errors_C10 (fall2 : ℚ → ℚ) (x y : ℚ) (b : Brush)
    (ms : List WorkerIn) :
    runWorker fall2 initialWorkerState (WorkerIn.brush x y b :: ms) =
      Except.error "TypeError: fields is undefined (no init yet)" := rfl

theorem moisture_formula_C2_witness :
    jget ([num 0, num 1, num 1] ++ List.replicate 6 (num 0) : List JsNum)
      (0 * 3 + 1) = num 1 ∧
    jget (computeMoisture ([num 0, num 1, num 1] ++ List.replicate 6 (num 0))
      3 (-(1/2)) (List.replicate 9 (num 0)) (rectAll 3)) (0 * 3 + 1) =
      num (clamp01Q (clamp01Q (1 - 1 + (-(1/2)))
        + 0.15 * max 0 ((1 : ℚ) - 0) - 0.10 * max 0 (-((1 : ℚ) - 0)))) :=
  ⟨by with_unfolding_all rfl,
   moisture_formula_C2 ([num 0, num 1, num 1] ++ List.replicate 6 (num 0))
     3 (-(1/2)) (List.replicate 9 (num 0)) (rectAll 3) (by norm_num)
     (by decide) (by decide) (by decide) (by decide)
     1 0 (by decide) (by decide) (by decide) (by decide)
     1 0 1 (by with_unfolding_all rfl) (by with_unfolding_all rfl)
     (by with_unfolding_all rfl) (by decide)⟩

theorem temperature_formula_C3_witness :
    (2 : ℤ) ≤ 2 ∧
    (jget (computeTemperature (List.replicate 4 (num 0)) 2 (1/2)
      (List.replicate 4 (num 0)) (rectAll 2)) (0 * 2 + 0) =
      num (clamp01Q (1 - (1/2) * 0 -
        0.6 * (|((0 : ℤ) : ℚ) / (((2 : ℤ) : ℚ) - 1) - 0.5| * 2))) ∧
    0 ≤ clamp01Q (1 - (1/2) * 0 -
        0.6 * (|((0 : ℤ) : ℚ) / (((2 : ℤ) : ℚ) - 1) - 0.5| * 2)) ∧
    clamp01Q (1 - (1/2) * 0 -
        0.6 * (|((0 : ℤ) : ℚ) / (((2 : ℤ) : ℚ) - 1) - 0.5| * 2)) ≤ 1) :=
  ⟨by norm_num,
   temperature_formula_C3 (List.replicate 4 (num 0)) 2 (1/2)
     (List.replicate 4 (num 0)) (rectAll 2) (by norm_num)
     (by decide) (by decide) (by decide) (by decide)
     0 0 (by decide) (by decide) (by decide) (by decide)
     0 (by with_unfolding_all rfl) (by decide)⟩

/-- One axis of `strokeBounds`: the clamped bounds are ordered within the
grid for an in-grid centre coordinate, and contain every in-grid integer
coordinate within `radius + pad` of the centre. -/
theorem strokeBounds_axis (c radius : ℚ) (size pad : ℤ)
    (hpad : 1 ≤ pad) (hrad : 0 < radius) (hsize : 1 ≤ size)
    (hc0 : 0 ≤ c) (hc1 : c ≤ (size : ℚ) - 1) :
    0 ≤ max 0 ⌊c - ((max 1 ⌊radius⌋ : ℤ) : ℚ) - (pad : ℚ)⌋ ∧
    max 0 ⌊c - ((max 1 ⌊radius⌋ : ℤ) : ℚ) - (pad : ℚ)⌋ ≤
      min (size - 1) ⌈c + ((max 1 ⌊radius⌋ : ℤ) : ℚ) + (pad : ℚ)⌉ ∧
    min (size - 1) ⌈c + ((max 1 ⌊radius⌋ : ℤ) : ℚ) + (pad : ℚ)⌉ ≤ size - 1 ∧
    ∀ x : ℤ, 0 ≤ x → x < size → |(x : ℚ) - c| ≤ radius + (pad : ℚ) →
      max 0 ⌊c - ((max 1 ⌊radius⌋ : ℤ) : ℚ) - (pad : ℚ)⌋ ≤ x ∧
      x ≤ min (size - 1) ⌈c + ((max 1 ⌊radius⌋ : ℤ) : ℚ) + (pad : ℚ)⌉ := by
  have hr1 : (1 : ℤ) ≤ max 1 ⌊radius⌋ := le_max_left _ _
  have hrR : radius < ((max 1 ⌊radius⌋ : ℤ) : ℚ) + 1 := by
    have h1 : radius < (⌊radius⌋ : ℚ) + 1 := Int.lt_floor_add_one radius
    have h2 : ((⌊radius⌋ : ℤ) : ℚ) ≤ ((max 1 ⌊radius⌋ : ℤ) : ℚ) := by
      exact_mod_cast le_max_right (1 : ℤ) ⌊radius⌋
    linarith
  have hRpos : (0 : ℚ) < ((max 1 ⌊radius⌋ : ℤ) : ℚ) := by
    exact_mod_cast lt_of_lt_of_le one_pos hr1
  have hPpos : (1 : ℚ) ≤ (pad : ℚ) := by exact_mod_cast hpad
  have hR1 : (1 : ℚ) ≤ ((max 1 ⌊radius⌋ : ℤ) : ℚ) := by exact_mod_cast hr1
  set R : ℚ := ((max 1 ⌊radius⌋ : ℤ) : ℚ) with hR
  have hA_le : ⌊c - R - (pad : ℚ)⌋ ≤ size - 1 := by
    have h1 : (⌊c - R - (pad : ℚ)⌋ : ℚ) ≤ c - R - (pad : ℚ) := Int.floor_le _
    have h2 : (⌊c - R - (pad : ℚ)⌋ : ℚ) ≤ ((size - 1 : ℤ) : ℚ) := by
      push_cast
      linarith
    exact_mod_cast h2
  have hB_ge : (2 : ℤ) ≤ ⌈c + R + (pad : ℚ)⌉ := by
    have h1 : c + R + (pad : ℚ) ≤ (⌈c + R + (pad : ℚ)⌉ : ℚ) := Int.le_ceil _
    have h2 : ((2 : ℤ) : ℚ) ≤ (⌈c + R + (pad : ℚ)⌉ : ℚ) := by
      push_cast
      linarith
    exact_mod_cast h2
  have hAB : ⌊c - R - (pad : ℚ)⌋ ≤ ⌈c + R + (pad : ℚ)⌉ := by
    have h1 : (⌊c - R - (pad : ℚ)⌋ : ℚ) ≤ (⌈c + R + (pad : ℚ)⌉ : ℚ) := by
      have h2 : (⌊c - R - (pad : ℚ)⌋ : ℚ) ≤ c - R - (pad : ℚ) := Int.floor_le _
      have h3 : c + R + (pad : ℚ) ≤ (⌈c + R + (pad : ℚ)⌉ : ℚ) := Int.le_ceil _
      linarith
    exact_mod_cast h1
  refine ⟨le_max_left _ _, by omega, min_le_left _ _, ?_⟩
  intro x hx0 hx1 hxd
  have habs := abs_le.mp hxd
  constructor
  · have h1 : (⌊c - R - (pad : ℚ)⌋ : ℚ) ≤ c - R - (pad : ℚ) := Int.floor_le _
    have h2 : c - R - (pad : ℚ) < (x : ℚ) + 1 := by linarith [habs.1]
    have h3 : ⌊c - R - (pad : ℚ)⌋ < x + 1 := by
      have h4 : (⌊c - R - (pad : ℚ)⌋ : ℚ) < ((x + 1 : ℤ) : ℚ) := by push_cast; linarith
      exact_mod_cast h4
    omega
  · have h1 : c + R + (pad : ℚ) ≤ (⌈c + R + (pad : ℚ)⌉ : ℚ) := Int.le_ceil _
    have h2 : (x : ℚ) < c + R + (pad : ℚ) + 1 := by linarith [habs.2]
    have h3 : x < ⌈c + R + (pad : ℚ)⌉ + 1 := by
      have h4 : ((x : ℤ) : ℚ) < ((⌈c + R + (pad : ℚ)⌉ + 1 : ℤ) : ℚ) := by push_cast; linarith
      exact_mod_cast h4
    omega

/-- `applyBrush` returns the `strokeBounds` rectangle with padding 2 for
smooth brushes and 1 otherwise, for every brush kind. -/
theorem applyBrush_rect (fall2 : ℚ → ℚ) (height moisture : List JsNum)
    (size : ℤ) (cx cy : ℚ) (b : Brush) :
    (applyBrush fall2 height moisture size cx cy b).2.2 =
      strokeBounds cx cy b.radius size
        (if b.kind = BrushKind.smooth then 2 else 1) := by
  rcases b with ⟨k, rad, str⟩
  cases k <;> rfl

/-- **C8** — counterexample.  For the out-of-grid centre `(100, 0)` on a
4-grid, `applyBrush` returns `x0 = 97 > 3 = x1`: the returned rectangle
violates the claimed ordering `0 ≤ x0 ≤ x1 ≤ size−1`, so the claim fails
for arbitrary centres. -/
theorem brush_rect_cex_C8 :
    ¬ ((applyBrush (fun _ => 0) (List.replicate 16 (num 0))
        (List.replicate 16 (num 0)) 4 100 0
        { kind := BrushKind.raise, radius := 1, strength := 0 }).2.2.x0 ≤
      (applyBrush (fun _ => 0) (List.replicate 16 (num 0))
        (List.replicate 16 (num 0)) 4 100 0
        { kind := BrushKind.raise, radius := 1, strength := 0 }).2.2.x1) := by
  with_unfolding_all decide

/-- **C8** — amended.  For every grid with `size ≥ 1`, every *in-grid*
centre `(cx, cy)` (i.e. `0 ≤ cx, cy ≤ size−1`) and every brush with
`radius > 0`, `applyBrush` returns a DirtyRect clamped to grid bounds with
`0 ≤ x0 ≤ x1 ≤ size−1` and `0 ≤ y0 ≤ y1 ≤ size−1`, and the rectangle
contains every in-grid cell of the disk of the given radius around
`(cx, cy)` expanded by the declared padding (1 pixel, 2 for smooth). -/
theorem brush_rect_contains_disk_C8 (fall2 : ℚ → ℚ)
    (height moisture : List JsNum) (size : ℤ) (cx cy : ℚ) (b : Brush)
    (rect : DirtyRect) (hsize : 1 ≤ size) (hrad : 0 < b.radius)
    (hcx0 : 0 ≤ cx) (hcx1 : cx ≤ (size : ℚ) - 1)
    (hcy0 : 0 ≤ cy) (hcy1 : cy ≤ (size : ℚ) - 1)
    (hrect : rect = (applyBrush fall2 height moisture size cx cy b).2.2) :
    (0 ≤ rect.x0 ∧ rect.x0 ≤ rect.x1 ∧ rect.x1 ≤ size - 1 ∧
     0 ≤ rect.y0 ∧ rect.y0 ≤ rect.y1 ∧ rect.y1 ≤ size - 1) ∧
    ∀ x y : ℤ, 0 ≤ x → x < size → 0 ≤ y → y < size →
      distSq cx cy x y ≤
        (b.radius + ((if b.kind = BrushKind.smooth then 2 else 1 : ℤ) : ℚ)) *
        (b.radius + ((if b.kind = BrushKind.smooth then 2 else 1 : ℤ) : ℚ)) →
      rect.x0 ≤ x ∧ x ≤ rect.x1 ∧ rect.y0 ≤ y ∧ y ≤ rect.y1 := by
  subst hrect
  rw [applyBrush_rect]
  have hpad1 : (1 : ℤ) ≤ (if b.kind = BrushKind.smooth then 2 else 1) := by
    split <;> norm_num
  set pad : ℤ := if b.kind = BrushKind.smooth then 2 else 1 with hpadd
  have hax := strokeBounds_axis cx b.radius size pad hpad1 hrad hsize hcx0 hcx1
  have hay := strokeBounds_axis cy b.radius size pad hpad1 hrad hsize hcy0 hcy1
  have hMpos : (0 : ℚ) < b.radius + (pad : ℚ) := by
    have h1 : (1 : ℚ) ≤ (pad : ℚ) := by exact_mod_cast hpad1
    linarith
  simp only [strokeBounds]
  constructor
  · exact ⟨hax.1, by
      constructor
      · exact hax.2.1
      · constructor
        · exact hax.2.2.1
        · exact ⟨hay.1, hay.2.1, hay.2.2.1⟩⟩
  · intro x y hx0 hx1 hy0 hy1 hd
    unfold distSq at hd
    have hysq : (0 : ℚ) ≤ ((y : ℚ) - cy) * ((y : ℚ) - cy) := mul_self_nonneg _
    have hxsq : (0 : ℚ) ≤ ((x : ℚ) - cx) * ((x : ℚ) - cx) := mul_self_nonneg _
    have hxabs : |(x : ℚ) - cx| ≤ b.radius + (pad : ℚ) := by
      refine abs_le.mpr ⟨by nlinarith, by nlinarith⟩
    have hyabs : |(y : ℚ) - cy| ≤ b.radius + (pad : ℚ) := by
      refine abs_le.mpr ⟨by nlinarith, by nlinarith⟩
    have hXb := hax.2.2.2 x hx0 hx1 hxabs
    have hYb := hay.2.2.2 y hy0 hy1 hyabs
    exact ⟨hXb.1, hXb.2, hYb.1, hYb.2⟩

theorem brush_rect_contains_disk_C8_witness :
    (0 : ℚ) < (Brush.mk BrushKind.raise 1 0).radius ∧
    ((0 ≤ (applyBrush (fun _ => 0) [num 0] [num 0] 1 0 0
        (Brush.mk BrushKind.raise 1 0)).2.2.x0 ∧
      (applyBrush (fun _ => 0) [num 0] [num 0] 1 0 0
        (Brush.mk BrushKind.raise 1 0)).2.2.x0 ≤
        (applyBrush (fun _ => 0) [num 0] [num 0] 1 0 0
          (Brush.mk BrushKind.raise 1 0)).2.2.x1 ∧
      (applyBrush (fun _ => 0) [num 0] [num 0] 1 0 0
        (Brush.mk BrushKind.raise 1 0)).2.2.x1 ≤ 1 - 1 ∧
      0 ≤ (applyBrush (fun _ => 0) [num 0] [num 0] 1 0 0
        (Brush.mk BrushKind.raise 1 0)).2.2.y0 ∧
      (applyBrush (fun _ => 0) [num 0] [num 0] 1 0 0
        (Brush.mk BrushKind.raise 1 0)).2.2.y0 ≤
        (applyBrush (fun _ => 0) [num 0] [num 0] 1 0 0
          (Brush.mk BrushKind.raise 1 0)).2.2.y1 ∧
      (applyBrush (fun _ => 0) [num 0] [num 0] 1 0 0
        (Brush.mk BrushKind.raise 1 0)).2.2.y1 ≤ 1 - 1) ∧
     ∀ x y : ℤ, 0 ≤ x → x < 1 → 0 ≤ y → y < 1 →
       distSq 0 0 x y ≤
         ((Brush.mk BrushKind.raise 1 0).radius +
           ((if (Brush.mk BrushKind.raise 1 0).kind = BrushKind.smooth
             then 2 else 1 : ℤ) : ℚ)) *
         ((Brush.mk BrushKind.raise 1 0).radius +
           ((if (Brush.mk BrushKind.raise 1 0).kind = BrushKind.smooth
             then 2 else 1 : ℤ) : ℚ)) →
       (applyBrush (fun _ => 0) [num 0] [num 0] 1 0 0
         (Brush.mk BrushKind.raise 1 0)).2.2.x0 ≤ x ∧
       x ≤ (applyBrush (fun _ => 0) [num 0] [num 0] 1 0 0
         (Brush.mk BrushKind.raise 1 0)).2.2.x1 ∧
       (applyBrush (fun _ => 0) [num 0] [num 0] 1 0 0
         (Brush.mk BrushKind.raise 1 0)).2.2.y0 ≤ y ∧
       y ≤ (applyBrush (fun _ => 0) [num 0] [num 0] 1 0 0
         (Brush.mk BrushKind.raise 1 0)).2.2.y1) :=
  ⟨by norm_num,
   brush_rect_contains_disk_C8 (fun _ => 0) [num 0] [num 0] 1 0 0
     (Brush.mk BrushKind.raise 1 0)
     (applyBrush (fun _ => 0) [num 0] [num 0] 1 0 0
       (Brush.mk BrushKind.raise 1 0)).2.2
     (by norm_num) (by norm_num) (by norm_num) (by norm_num)
     (by norm_num) (by norm_num) rfl⟩

/-- Adding the finite value 0 is the identity on every JS number. -/
theorem jadd_num_zero (v : JsNum) : jadd v (num 0) = v := by
  cases v <;> simp [jadd]

/-- The amount `radialAdd` adds at cell `(x, y)` (0 outside the stamp). -/
def radialDelta (fall2 : ℚ → ℚ) (size : ℤ) (cx cy radius strength : ℚ)
    (x y : ℤ) : ℚ :=
  if ((radialRect size cx cy radius).x0 ≤ x ∧
      x ≤ (radialRect size cx cy radius).x1 ∧
      (radialRect size cx cy radius).y0 ≤ y ∧
      y ≤ (radialRect size cx cy radius).y1) ∧
     ¬ (radius * radius < distSq cx cy x y)
  then strength * fall2 (distSq cx cy x y) else 0

/-- `radialAdd` adds exactly `radialDelta` to a finite cell. -/
theorem jget_radialAdd_delta (fall2 : ℚ → ℚ) (field : List JsNum) (size : ℤ)
    (cx cy radius strength : ℚ) (hpos : 0 < size)
    (x y : ℤ) (hx : 0 ≤ x) (hx' : x < size) (hy : 0 ≤ y) (hy' : y < size)
    (hlen : (y * size + x).toNat < field.length)
    (q : ℚ) (hq : jget field (y * size + x) = num q) :
    jget (radialAdd fall2 field size cx cy radius strength) (y * size + x) =
      num (q + radialDelta fall2 size cx cy radius strength x y) := by
  rw [jget_radialAdd fall2 field size cx cy radius strength hpos x y hx hx' hy hy' hlen]
  unfold radialDelta
  by_cases hcond : ((radialRect size cx cy radius).x0 ≤ x ∧
      x ≤ (radialRect size cx cy radius).x1 ∧
      (radialRect size cx cy radius).y0 ≤ y ∧
      y ≤ (radialRect size cx cy radius).y1) ∧
     ¬ (radius * radius < distSq cx cy x y)
  · rw [if_pos hcond, if_pos hcond, hq, jadd_num]
  · rw [if_neg hcond, if_neg hcond, hq, add_zero]

theorem jclampNum_id (a lo hi : ℚ) (h0 : lo ≤ a) (h1 : a ≤ hi) :
    jclampNum (num a) lo hi = num a := by
  rw [jclampNum_num, if_neg (not_lt.mpr h0), if_neg (not_lt.mpr h1)]

/-- **C9** — confirmed (in the exact-arithmetic model, so "within
floating-point tolerance" is exact equality).  Applying the raise brush and
then the lower brush with the same centre, radius and strength restores the
original height at every in-grid cell whose original value is in `[0,1]`
and where the intermediate value `q + delta` was not clamped (`0 ≤ q+delta ≤ 1`).
Proved for an arbitrary falloff `fall2`, hence for the cosine falloff. -/
theorem raise_lower_restores_C9 (fall2 : ℚ → ℚ) (height moisture : List JsNum)
    (size : ℤ) (cx cy radius strength : ℚ)
    (hpos : 0 < size) (hrad : 0 < radius)
    (x y : ℤ) (hx : 0 ≤ x) (hx' : x < size) (hy : 0 ≤ y) (hy' : y < size)
    (hlen : (y * size + x).toNat < height.length)
    (q : ℚ) (hq : jget height (y * size + x) = num q)
    (hq0 : 0 ≤ q) (hq1 : q ≤ 1)
    (hnc0 : 0 ≤ q + radialDelta fall2 size cx cy radius strength x y)
    (hnc1 : q + radialDelta fall2 size cx cy radius strength x y ≤ 1) :
    jget (applyBrush fall2
      (applyBrush fall2 height moisture size cx cy
        (Brush.mk BrushKind.raise radius strength)).1
      moisture size cx cy (Brush.mk BrushKind.lower radius strength)).1
      (y * size + x) = num q := by
  have hB := strokeBounds cx cy radius size 1
  have happly1 : (applyBrush fall2 height moisture size cx cy
      (Brush.mk BrushKind.raise radius strength)).1 =
      clampRegion (radialAdd fall2 height size cx cy radius strength) size
        (strokeBounds cx cy radius size 1) 0 1 := rfl
  have happly2 : ∀ f : List JsNum, (applyBrush fall2 f moisture size cx cy
      (Brush.mk BrushKind.lower radius strength)).1 =
      clampRegion (radialAdd fall2 f size cx cy radius (-strength)) size
        (strokeBounds cx cy radius size 1) 0 1 := fun _ => rfl
  set δ := radialDelta fall2 size cx cy radius strength x y with hδ
  set B := strokeBounds cx cy radius size 1 with hBdef
  have hBx0 : 0 ≤ B.x0 := le_max_left _ _
  have hBx1 : B.x1 ≤ size - 1 := min_le_left _ _
  -- step 1: the raise stamp adds δ
  have h1 : jget (radialAdd fall2 height size cx cy radius strength)
      (y * size + x) = num (q + δ) :=
    jget_radialAdd_delta fall2 height size cx cy radius strength hpos
      x y hx hx' hy hy' hlen q hq
  have hlen1 : (y * size + x).toNat <
      (radialAdd fall2 height size cx cy radius strength).length := by
    rw [length_radialAdd]; exact hlen
  have h2 : jget (applyBrush fall2 height moisture size cx cy
      (Brush.mk BrushKind.raise radius strength)).1 (y * size + x) = num (q + δ) := by
    rw [happly1, jget_clampRegion _ size B 0 1 hpos hBx0 hBx1 x y hx hx' hy hy' hlen1]
    by_cases hmem : B.x0 ≤ x ∧ x ≤ B.x1 ∧ B.y0 ≤ y ∧ y ≤ B.y1
    · rw [if_pos hmem, h1, jclampNum_id _ _ _ hnc0 hnc1]
    · rw [if_neg hmem, h1]
  -- step 2: the lower stamp subtracts δ again
  have hδneg : radialDelta fall2 size cx cy radius (-strength) x y = -δ := by
    rw [hδ]
    unfold radialDelta
    split
    · ring
    · ring
  have hlen2 : (y * size + x).toNat <
      (applyBrush fall2 height moisture size cx cy
        (Brush.mk BrushKind.raise radius strength)).1.length := by
    rw [happly1, length_clampRegion, length_radialAdd]; exact hlen
  have h3 : jget (radialAdd fall2
      (applyBrush fall2 height moisture size cx cy
        (Brush.mk BrushKind.raise radius strength)).1
      size cx cy radius (-strength)) (y * size + x) = num q := by
    rw [jget_radialAdd_delta fall2 _ size cx cy radius (-strength) hpos
      x y hx hx' hy hy' hlen2 (q + δ) h2, hδneg]
    ring_nf
  have hlen3 : (y * size + x).toNat <
      (radialAdd fall2
        (applyBrush fall2 height moisture size cx cy
          (Brush.mk BrushKind.raise radius strength)).1
        size cx cy radius (-strength)).length := by
    rw [length_radialAdd]; exact hlen2
  rw [happly2, jget_clampRegion _ size B 0 1 hpos hBx0 hBx1 x y hx hx' hy hy' hlen3]
  by_cases hmem : B.x0 ≤ x ∧ x ≤ B.x1 ∧ B.y0 ≤ y ∧ y ≤ B.y1
  · rw [if_pos hmem, h3, jclampNum_id _ _ _ hq0 hq1]
  · rw [if_neg hmem, h3]

theorem raise_lower_restores_C9_witness :
    (0 ≤ (1/2 : ℚ) + radialDelta (fun _ => 1) 3 1 1 1 (1/4) 1 1 ∧
     (1/2 : ℚ) + radialDelta (fun _ => 1) 3 1 1 1 (1/4) 1 1 ≤ 1) ∧
    jget (applyBrush (fun _ => 1)
      (applyBrush (fun _ => 1) (List.replicate 9 (num (1/2)))
        (List.replicate 9 (num 0)) 3 1 1
        (Brush.mk BrushKind.raise 1 (1/4))).1
      (List.replicate 9 (num 0)) 3 1 1
      (Brush.mk BrushKind.lower 1 (1/4))).1 (1 * 3 + 1) = num (1/2) :=
  ⟨⟨by with_unfolding_all decide, by with_unfolding_all decide⟩,
   raise_lower_restores_C9 (fun _ => 1) (List.replicate 9 (num (1/2)))
     (List.replicate 9 (num 0)) 3 1 1 1 (1/4) (by norm_num) (by norm_num)
     1 1 (by norm_num) (by norm_num) (by norm_num) (by norm_num)
     (by with_unfolding_all decide) (1/2) (by with_unfolding_all rfl)
     (by norm_num) (by norm_num)
     (by with_unfolding_all decide) (by with_unfolding_all decide)⟩

/-! ## River router lemmas -/

theorem foldl_inv {α σ : Type} (P : σ → Prop) (f : σ → α → σ) (l : List α)
    (s : σ) (h0 : P s) (hstep : ∀ s a, a ∈ l → P s → P (f s a)) :
    P (l.foldl f s) := by
  induction l generalizing s with
  | nil => exact h0
  | cons a l ih =>
    exact ih (f s a) (hstep s a (List.mem_cons_self ..) h0)
      (fun s' a' ha' => hstep s' a' (List.mem_cons_of_mem _ ha'))

/-- `downhill` returns `-1` or an in-grid linear index. -/
theorem downhill_range (height : List JsNum) (size i : ℤ) (hpos : 0 < size) :
    downhill height size i = -1 ∨
      (0 ≤ downhill height size i ∧ downhill height size i < size * size) := by
  unfold downhill
  dsimp only
  set x := i - Int.fdiv i size * size with hx
  set y := Int.fdiv i size with hy
  set z := jget height i with hz
  have hstep : ∀ dy : ℤ, ∀ b : ℤ × JsNum,
      (b.1 = -1 ∨ (0 ≤ b.1 ∧ b.1 < size * size)) → ∀ dx : ℤ,
      ((downhillStep height size x y z dy b dx).1 = -1 ∨
        (0 ≤ (downhillStep height size x y z dy b dx).1 ∧
         (downhillStep height size x y z dy b dx).1 < size * size)) := by
    intro dy b hb dx
    unfold downhillStep
    split
    · exact hb
    · dsimp only
      split
      · exact hb
      · rename_i hskip hout
        split
        · right
          push_neg at hout
          constructor
          · have h1 : 0 ≤ (y + dy) * size := mul_nonneg (by omega) hpos.le
            show 0 ≤ (y + dy) * size + (x + dx)
            omega
          · show (y + dy) * size + (x + dx) < size * size
            have h1 : (y + dy) * size ≤ (size - 1) * size :=
              mul_le_mul_of_nonneg_right (by omega) hpos.le
            have h2 : (size - 1) * size = size * size - size := by ring
            omega
        · exact hb
  have hfold := foldl_inv
    (fun b : ℤ × JsNum => b.1 = -1 ∨ (0 ≤ b.1 ∧ b.1 < size * size))
    (fun best (dy : ℤ) => (intRange (-1) 1).foldl (downhillStep height size x y z dy) best)
    (intRange (-1) 1) ((-1 : ℤ), num 0) (Or.inl rfl)
    (fun b dy _ hb => foldl_inv
      (fun b : ℤ × JsNum => b.1 = -1 ∨ (0 ≤ b.1 ∧ b.1 < size * size))
      (downhillStep height size x y z dy) (intRange (-1) 1) b hb
      (fun b' dx _ hb' => hstep dy b' hb' dx))
  split
  · exact hfold
  · left
    rfl

theorem length_accumStep (height : List JsNum) (size : ℤ) (sea : ℚ)
    (accum : List JsNum) (i : ℤ) :
    (accumStep height size sea accum i).length = accum.length := by
  unfold accumStep
  dsimp only
  split
  · exact length_jset _ _ _
  · rw [length_jset]
    split
    · exact length_jset _ _ _
    · rfl

theorem jget_accumStep_self (height : List JsNum) (size : ℤ) (sea : ℚ)
    (accum : List JsNum) (i : ℤ) (h0 : 0 ≤ i) (hl : i.toNat < accum.length) :
    jget (accumStep height size sea accum i) i =
      if jle (jget height i) (num sea) then num 0
      else jadd (jget accum i) (num 1) := by
  unfold accumStep
  dsimp only
  split
  · exact jget_jset_self _ _ _ h0 hl
  · have hl1 : i.toNat < (if 0 ≤ downhill height size i then
        jset accum (downhill height size i)
          (jadd (jget accum (downhill height size i)) (jadd (jget accum i) (num 1)))
        else accum).length := by
      split
      · rw [length_jset]; exact hl
      · exact hl
    exact jget_jset_self _ _ _ h0 hl1

theorem jget_accumStep_ocean (height : List JsNum) (size : ℤ) (sea : ℚ)
    (accum : List JsNum) (i : ℤ)
    (hocean : jle (jget height i) (num sea) = true)
    (k : ℤ) (hki : k ≠ i) :
    jget (accumStep height size sea accum i) k = jget accum k := by
  unfold accumStep
  dsimp only
  rw [if_pos hocean]
  exact jget_jset_ne _ _ _ _ (Ne.symm hki)

theorem jget_accumStep_other (height : List JsNum) (size : ℤ) (sea : ℚ)
    (accum : List JsNum) (i k : ℤ)
    (hki : k ≠ i) (hkj : k ≠ downhill height size i) :
    jget (accumStep height size sea accum i) k = jget accum k := by
  unfold accumStep
  dsimp only
  split
  · exact jget_jset_ne _ _ _ _ (Ne.symm hki)
  · rw [jget_jset_ne _ _ _ _ (Ne.symm hki)]
    split
    · exact jget_jset_ne _ _ _ _ (Ne.symm hkj)
    · rfl

theorem jget_accumStep_push (height : List JsNum) (size : ℤ) (sea : ℚ)
    (accum : List JsNum) (i k : ℤ)
    (hki : k ≠ i) (hkj : k = downhill height size i)
    (hocean : jle (jget height i) (num sea) = false)
    (h0 : 0 ≤ k) (hl : k.toNat < accum.length) :
    jget (accumStep height size sea accum i) k =
      jadd (jget accum k) (jadd (jget accum i) (num 1)) := by
  unfold accumStep
  dsimp only
  rw [if_neg (by simp [hocean])]
  rw [jget_jset_ne _ _ _ _ (Ne.symm hki)]
  subst hkj
  rw [if_pos h0]
  exact jget_jset_self _ _ _ h0 hl

/-- Every accumulator entry is a nonnegative finite number. -/
def accNN (accum : List JsNum) : Prop :=
  ∀ j : ℤ, 0 ≤ j → j.toNat < accum.length → ∃ q, jget accum j = num q ∧ 0 ≤ q

theorem accNN_step (height : List JsNum) (size : ℤ) (sea : ℚ)
    (accum : List JsNum) (i : ℤ)
    (hlen : accum.length = (size * size).toNat)
    (hi : 0 ≤ i) (hi' : i < size * size) (hnn : accNN accum) :
    accNN (accumStep height size sea accum i) := by
  intro k hk0 hkl
  rw [length_accumStep] at hkl
  by_cases hki : k = i
  · subst hki
    rw [jget_accumStep_self _ _ _ _ _ hk0 hkl]
    split
    · exact ⟨0, rfl, le_refl 0⟩
    · obtain ⟨q, hq, hq0⟩ := hnn k hk0 hkl
      rw [hq, jadd_num]
      exact ⟨q + 1, rfl, by linarith⟩
  · cases hoc : jle (jget height i) (num sea) with
    | true =>
      rw [jget_accumStep_ocean _ _ _ _ _ hoc k hki]
      exact hnn k hk0 hkl
    | false =>
      by_cases hkj : k = downhill height size i
      · rw [jget_accumStep_push _ _ _ _ _ _ hki hkj hoc hk0 hkl]
        obtain ⟨qk, hqk, hqk0⟩ := hnn k hk0 hkl
        obtain ⟨qi, hqi, hqi0⟩ := hnn i hi (by omega)
        rw [hqk, hqi, jadd_num, jadd_num]
        exact ⟨qk + (qi + 1), rfl, by linarith⟩
      · rw [jget_accumStep_other _ _ _ _ _ _ hki hkj]
        exact hnn k hk0 hkl

theorem accum_step_mono (height : List JsNum) (size : ℤ) (sea : ℚ)
    (accum : List JsNum) (i : ℤ)
    (hlen : accum.length = (size * size).toNat)
    (hi : 0 ≤ i) (hi' : i < size * size) (hnn : accNN accum)
    (k : ℤ) (hk0 : 0 ≤ k) (hkl : k < size * size)
    (hland : jle (jget height k) (num sea) = false)
    (a : ℚ) (ha : jget accum k = num a) :
    ∃ a', jget (accumStep height size sea accum i) k = num a' ∧ a ≤ a' := by
  have hklt : k.toNat < accum.length := by omega
  by_cases hki : k = i
  · subst hki
    rw [jget_accumStep_self _ _ _ _ _ hk0 hklt, if_neg (by simp [hland]), ha,
      jadd_num]
    exact ⟨a + 1, rfl, by linarith⟩
  · cases hoc : jle (jget height i) (num sea) with
    | true =>
      rw [jget_accumStep_ocean _ _ _ _ _ hoc k hki, ha]
      exact ⟨a, rfl, le_refl a⟩
    | false =>
      by_cases hkj : k = downhill height size i
      · rw [jget_accumStep_push _ _ _ _ _ _ hki hkj hoc hk0 hklt]
        obtain ⟨qi, hqi, hqi0⟩ := hnn i hi (by omega)
        rw [ha, hqi, jadd_num, jadd_num]
        exact ⟨a + (qi + 1), rfl, by linarith⟩
      · rw [jget_accumStep_other _ _ _ _ _ _ hki hkj, ha]
        exact ⟨a, rfl, le_refl a⟩

theorem accum_fold_mono (height : List JsNum) (size : ℤ) (sea : ℚ) :
    ∀ (order : List ℤ), (∀ m ∈ order, 0 ≤ m ∧ m < size * size) →
    ∀ (accum : List JsNum), accum.length = (size * size).toNat → accNN accum →
    ∀ (k : ℤ), 0 ≤ k → k < size * size →
    jle (jget height k) (num sea) = false →
    ∀ (a : ℚ), jget accum k = num a →
    ∃ a', jget (order.foldl (accumStep height size sea) accum) k = num a' ∧
      a ≤ a' := by
  intro order
  induction order with
  | nil =>
    intro _ accum _ _ k _ _ _ a ha
    exact ⟨a, ha, le_refl a⟩
  | cons i rest ih =>
    intro horder accum hlen hnn k hk0 hkl hland a ha
    have hi := horder i (List.mem_cons_self ..)
    obtain ⟨a1, ha1, haa1⟩ := accum_step_mono height size sea accum i hlen
      hi.1 hi.2 hnn k hk0 hkl hland a ha
    have hlen1 : (accumStep height size sea accum i).length = (size * size).toNat := by
      rw [length_accumStep]; exact hlen
    have hnn1 := accNN_step height size sea accum i hlen hi.1 hi.2 hnn
    obtain ⟨a2, ha2, ha12⟩ := ih
      (fun m hm => horder m (List.mem_cons_of_mem _ hm))
      (accumStep height size sea accum i) hlen1 hnn1 k hk0 hkl hland a1 ha1
    exact ⟨a2, ha2, le_trans haa1 ha12⟩

theorem accum_fold_nn (height : List JsNum) (size : ℤ) (sea : ℚ)
    (order : List ℤ) (horder : ∀ m ∈ order, 0 ≤ m ∧ m < size * size)
    (accum : List JsNum) (hlen : accum.length = (size * size).toNat)
    (hnn : accNN accum) :
    accNN (order.foldl (accumStep height size sea) accum) ∧
    (order.foldl (accumStep height size sea) accum).length =
      (size * size).toNat := by
  refine foldl_inv (fun acc => accNN acc ∧ acc.length = (size * size).toNat)
    (accumStep height size sea) order accum ⟨hnn, hlen⟩ ?_
  intro acc m hm hP
  have h := horder m hm
  exact ⟨accNN_step height size sea acc m hP.2 h.1 h.2 hP.1,
    by rw [length_accumStep]; exact hP.2⟩

/-- A land cell (strictly above sea level) ends with accumulation at
least 1. -/
theorem accum_land_ge_one (height : List JsNum) (size : ℤ) (sea : ℚ)
    (order : List ℤ) (horder : ∀ m ∈ order, 0 ≤ m ∧ m < size * size)
    (accum0 : List JsNum) (hlen0 : accum0.length = (size * size).toNat)
    (hnn0 : accNN accum0)
    (i : ℤ) (hmem : i ∈ order)
    (hland : jle (jget height i) (num sea) = false) :
    ∃ a, jget (accumulateFlow height size sea order accum0) i = num a ∧
      1 ≤ a := by
  obtain ⟨s, t, rfl⟩ := List.append_of_mem hmem
  have hi := horder i (by simp)
  unfold accumulateFlow
  rw [List.foldl_append, List.foldl_cons]
  have hs : ∀ m ∈ s, 0 ≤ m ∧ m < size * size := by
    intro m hm
    exact horder m (by simp [hm])
  have ht : ∀ m ∈ t, 0 ≤ m ∧ m < size * size := by
    intro m hm
    exact horder m (by simp [hm])
  obtain ⟨hnnA, hlenA⟩ := accum_fold_nn height size sea s hs accum0 hlen0 hnn0
  set A1 := s.foldl (accumStep height size sea) accum0 with hA1
  have hitoNat : i.toNat < A1.length := by
    rw [hlenA]; omega
  obtain ⟨qi, hqi, hqi0⟩ := hnnA i hi.1 hitoNat
  have hstep : jget (accumStep height size sea A1 i) i = num (qi + 1) := by
    rw [jget_accumStep_self _ _ _ _ _ hi.1 hitoNat, if_neg (by simp [hland]),
      hqi, jadd_num]
  have hlenS : (accumStep height size sea A1 i).length = (size * size).toNat := by
    rw [length_accumStep]; exact hlenA
  have hnnS := accNN_step height size sea A1 i hlenA hi.1 hi.2 hnnA
  obtain ⟨a, ha, hle⟩ := accum_fold_mono height size sea t ht
    (accumStep height size sea A1 i) hlenS hnnS i hi.1 hi.2 hland
    (qi + 1) hstep
  exact ⟨a, ha, by linarith⟩

theorem jget_mem (f : List JsNum) (i : ℤ) (h0 : 0 ≤ i)
    (hl : i.toNat < f.length) : jget f i ∈ f := by
  unfold jget
  rw [if_pos h0]
  rw [List.getD_eq_getElem?_getD, List.getElem?_eq_getElem hl]
  exact List.getElem_mem hl

theorem maxFold_spec (l : List JsNum) :
    ∀ s : ℚ, (∀ v ∈ l, ∃ q, v = num q) →
    ∃ m, l.foldl (fun m a => if jlt m a then a else m) (num s) = num m ∧
      s ≤ m ∧ ∀ v ∈ l, ∀ q, v = num q → q ≤ m := by
  induction l with
  | nil =>
    intro s _
    exact ⟨s, rfl, le_refl s, by simp⟩
  | cons v vs ih =>
    intro s hfin
    obtain ⟨qv, rfl⟩ := hfin v (List.mem_cons_self ..)
    rw [List.foldl_cons]
    by_cases hsv : s < qv
    · rw [if_pos (show jlt (num s) (num qv) = true from decide_eq_true hsv)]
      obtain ⟨m, hm, hsm, hall⟩ := ih qv
        (fun w hw => hfin w (List.mem_cons_of_mem _ hw))
      refine ⟨m, hm, by linarith, ?_⟩
      intro w hw q hq
      rcases List.mem_cons.mp hw with hw | hw
      · rw [hw] at hq
        have hqq : qv = q := by injection hq
        linarith
      · exact hall w hw q hq
    · rw [if_neg (show ¬ jlt (num s) (num qv) = true by
        rw [jlt_num]; simpa using hsv)]
      obtain ⟨m, hm, hsm, hall⟩ := ih s
        (fun w hw => hfin w (List.mem_cons_of_mem _ hw))
      refine ⟨m, hm, hsm, ?_⟩
      intro w hw q hq
      rcases List.mem_cons.mp hw with hw | hw
      · rw [hw] at hq
        have hqq : qv = q := by injection hq
        have : qv ≤ s := not_lt.mp hsv
        linarith
      · exact hall w hw q hq

theorem maxAccum_spec (accum : List JsNum)
    (hfin : ∀ v ∈ accum, ∃ q, v = num q) :
    ∃ m, maxAccum accum = num m ∧ 0 ≤ m ∧
      ∀ v ∈ accum, ∀ q, v = num q → q ≤ m :=
  maxFold_spec accum 0 hfin

/-- The flow-accumulation buffer `computeRivers` builds internally. -/
def flowAccum (f : Fields) (size : ℤ) (p : SimParams) : List JsNum :=
  accumulateFlow f.height size p.climate.seaLevel
    ((intRange 0 (size * size - 1)).mergeSort
      (fun a b => jle (jget f.height b) (jget f.height a)))
    (List.replicate (size * size).toNat (num 0))

/-- The normalisation factor of `computeRivers`. -/
def invMaxOf (accum : List JsNum) : JsNum :=
  if jlt (num 0) (maxAccum accum) then jdiv (num 1) (maxAccum accum) else num 1

theorem computeRivers_rivers_eq (f : Fields) (size : ℤ) (p : SimParams) :
    (computeRivers f size p).rivers =
      (intRange 0 (size * size - 1)).foldl (fun rv i =>
        bset rv i (riverMaskAt f.height (flowAccum f size p)
          p.climate.seaLevel p.riverThreshold
          (invMaxOf (flowAccum f size p)) i)) f.rivers := rfl

theorem jget_replicate_zero (n : ℕ) (j : ℤ) (hj0 : 0 ≤ j)
    (hjl : j.toNat < n) :
    jget (List.replicate n (num 0)) j = num 0 := by
  unfold jget
  rw [if_pos hj0, List.getD_eq_getElem?_getD,
    List.getElem?_replicate_of_lt (by simpa using hjl)]
  rfl

theorem accNN_replicate (n : ℕ) : accNN (List.replicate n (num 0)) := by
  intro j hj0 hjl
  rw [List.length_replicate] at hjl
  exact ⟨0, jget_replicate_zero n j hj0 hjl, le_refl 0⟩

theorem accNN_to_mem (A : List JsNum) (h : accNN A) :
    ∀ v ∈ A, ∃ q, v = num q ∧ 0 ≤ q := by
  intro v hv
  obtain ⟨k, hk, hkv⟩ := List.mem_iff_getElem.mp hv
  have hknat : ((k : ℤ)).toNat < A.length := by simpa using hk
  obtain ⟨q, hq, hq0⟩ := h (k : ℤ) (Int.ofNat_nonneg k) hknat
  refine ⟨q, ?_, hq0⟩
  rw [← hkv, ← hq]
  unfold jget
  rw [if_pos (Int.ofNat_nonneg k), List.getD_eq_getElem?_getD,
    List.getElem?_eq_getElem hknat]
  simp

/-- The order list of `computeRivers` consists of in-range indices. -/
theorem order_mem_range (height : List JsNum) (size : ℤ) (hpos : 0 < size) :
    ∀ m ∈ (intRange 0 (size * size - 1)).mergeSort
      (fun a b => jle (jget height b) (jget height a)),
      0 ≤ m ∧ m < size * size := by
  intro m hm
  have := mem_intRange.mp (List.mem_mergeSort.mp hm)
  omega

/-- **C4** — confirmed.  After `computeRivers`, a cell is marked as river
exactly when it is land (`height > seaLevel`) and its flow accumulation
divided by the grid maximum accumulation is at least `riverThreshold`; every
cell at or below sea level gets 0; and with `riverThreshold = 0` every land
cell gets 1. -/
theorem computeRivers_threshold_C4 (f : Fields) (size : ℤ) (p : SimParams)
    (hpos : 0 < size)
    (hlenh : f.height.length = (size * size).toNat)
    (hlenr : f.rivers.length = (size * size).toNat)
    (i : ℤ) (hi0 : 0 ≤ i) (hi1 : i < size * size)
    (h : ℚ) (hh : jget f.height i = num h) :
    (bget (computeRivers f size p).rivers i = 1 ↔
      (p.climate.seaLevel < h ∧
       ∃ a m : ℚ, jget (flowAccum f size p) i = num a ∧
         maxAccum (flowAccum f size p) = num m ∧
         p.riverThreshold ≤ a / m)) ∧
    (h ≤ p.climate.seaLevel → bget (computeRivers f size p).rivers i = 0) ∧
    (p.riverThreshold = 0 → p.climate.seaLevel < h →
      bget (computeRivers f size p).rivers i = 1) := by
  have horder := order_mem_range f.height size hpos
  have hnn0 := accNN_replicate (size * size).toNat
  have hlen0 : (List.replicate (size * size).toNat (num 0) : List JsNum).length =
      (size * size).toNat := List.length_replicate ..
  obtain ⟨hnnA, hlenA⟩ := accum_fold_nn f.height size p.climate.seaLevel
    ((intRange 0 (size * size - 1)).mergeSort
      (fun a b => jle (jget f.height b) (jget f.height a)))
    horder (List.replicate (size * size).toNat (num 0)) hlen0 hnn0
  have hAeq : flowAccum f size p =
      ((intRange 0 (size * size - 1)).mergeSort
        (fun a b => jle (jget f.height b) (jget f.height a))).foldl
        (accumStep f.height size p.climate.seaLevel)
        (List.replicate (size * size).toNat (num 0)) := rfl
  rw [← hAeq] at hnnA hlenA
  have hfinA := accNN_to_mem (flowAccum f size p) hnnA
  obtain ⟨m, hmA, hm0, hallm⟩ := maxAccum_spec (flowAccum f size p)
    (fun v hv => (hfinA v hv).imp (fun q hq => hq.1))
  have hitoNat : i.toNat < (flowAccum f size p).length := by
    rw [hlenA]; omega
  obtain ⟨a, haA, ha0⟩ := hnnA i hi0 hitoNat
  have ham : a ≤ m := hallm (jget (flowAccum f size p) i)
    (jget_mem _ _ hi0 hitoNat) a haA
  have hrv : bget (computeRivers f size p).rivers i =
      riverMaskAt f.height (flowAccum f size p) p.climate.seaLevel
        p.riverThreshold (invMaxOf (flowAccum f size p)) i := by
    rw [computeRivers_rivers_eq]
    rw [bget_linearFold _ _ _ (intRange_nodup _ _) i hi0 (by omega)]
    rw [if_pos (mem_intRange.mpr ⟨hi0, by omega⟩)]
  by_cases hsea : h ≤ p.climate.seaLevel
  · -- ocean cell
    have hmask : riverMaskAt f.height (flowAccum f size p) p.climate.seaLevel
        p.riverThreshold (invMaxOf (flowAccum f size p)) i = 0 := by
      unfold riverMaskAt
      rw [hh]
      dsimp only
      rw [jle_num, if_pos (decide_eq_true hsea)]
    refine ⟨?_, fun _ => by rw [hrv, hmask], fun _ hsea' => absurd hsea (not_le.mpr hsea')⟩
    rw [hrv, hmask]
    constructor
    · intro h01
      exact absurd h01 (by norm_num)
    · rintro ⟨hsea', _⟩
      exact absurd hsea (not_le.mpr hsea')
  · -- land cell
    have hsea' : p.climate.seaLevel < h := not_le.mp hsea
    have hland : jle (jget f.height i) (num p.climate.seaLevel) = false := by
      rw [hh, jle_num]
      simpa using hsea
    obtain ⟨a1, ha1A, ha11⟩ := accum_land_ge_one f.height size p.climate.seaLevel
      ((intRange 0 (size * size - 1)).mergeSort
        (fun a b => jle (jget f.height b) (jget f.height a)))
      horder (List.replicate (size * size).toNat (num 0)) hlen0 hnn0 i
      (List.mem_mergeSort.mpr (mem_intRange.mpr ⟨hi0, by omega⟩)) hland
    have ha1a : a1 = a := by
      have := ha1A
      rw [show accumulateFlow f.height size p.climate.seaLevel
        ((intRange 0 (size * size - 1)).mergeSort
          (fun a b => jle (jget f.height b) (jget f.height a)))
        (List.replicate (size * size).toNat (num 0)) = flowAccum f size p from rfl] at this
      rw [haA] at this
      injection this with he
      exact he.symm
    have ha1 : 1 ≤ a := by rw [ha1a] at ha11; exact ha11
    have hmpos : 0 < m := by linarith
    have hinv : invMaxOf (flowAccum f size p) = num (1 / m) := by
      unfold invMaxOf
      rw [hmA, jlt_num, if_pos (decide_eq_true hmpos), jdiv_num _ _ (by linarith)]
    have hmask : riverMaskAt f.height (flowAccum f size p) p.climate.seaLevel
        p.riverThreshold (invMaxOf (flowAccum f size p)) i =
        if p.riverThreshold ≤ a / m then 1 else 0 := by
      unfold riverMaskAt
      rw [hh]
      dsimp only
      rw [jle_num, if_neg (by simpa using hsea), haA, hinv, jmul_num,
        mul_one_div, jle_num]
      by_cases ht : p.riverThreshold ≤ a / m
      · rw [if_pos (decide_eq_true ht), if_pos ht]
      · rw [if_neg (by simpa using ht), if_neg ht]
    refine ⟨?_, fun hc => absurd hc hsea, ?_⟩
    · rw [hrv, hmask]
      constructor
      · intro h1
        refine ⟨hsea', a, m, haA, hmA, ?_⟩
        by_contra hc
        rw [if_neg hc] at h1
        exact absurd h1 (by norm_num)
      · rintro ⟨_, a', m', ha'A, hm'A, hthr⟩
        have haa : a' = a := by
          rw [haA] at ha'A
          injection ha'A with he
          exact he.symm
        have hmm : m' = m := by
          rw [hmA] at hm'A
          injection hm'A with he
          exact he.symm
        rw [haa, hmm] at hthr
        rw [if_pos hthr]
    · intro hthr0 _
      rw [hrv, hmask, if_pos (by
        rw [hthr0]
        positivity)]

/-- A 1-cell field set with height 1 (for concrete instantiations). -/
def onesField1 : Fields :=
  { height := [num 1], temperature := [num 0], moisture := [num 0],
    rivers := [0], biomes := [0] }

/-- Simple valid parameters for a 1-cell grid with the given threshold. -/
def simpleParams (thr : ℚ) : SimParams :=
  { size := 1
    noise := { octaves := 1, lacunarity := 2, gain := 1/2, warp := 0 }
    climate := { seaLevel := 0, tempLapse := 1/2, moistureShift := 0 }
    riverThreshold := thr }

theorem computeRivers_threshold_C4_witness :
    jget onesField1.height 0 = num 1 ∧
    ((bget (computeRivers onesField1 1 (simpleParams 0)).rivers 0 = 1 ↔
       ((simpleParams 0).climate.seaLevel < 1 ∧
        ∃ a m : ℚ, jget (flowAccum onesField1 1 (simpleParams 0)) 0 = num a ∧
          maxAccum (flowAccum onesField1 1 (simpleParams 0)) = num m ∧
          (simpleParams 0).riverThreshold ≤ a / m)) ∧
     ((1 : ℚ) ≤ (simpleParams 0).climate.seaLevel →
       bget (computeRivers onesField1 1 (simpleParams 0)).rivers 0 = 0) ∧
     ((simpleParams 0).riverThreshold = 0 →
       (simpleParams 0).climate.seaLevel < 1 →
       bget (computeRivers onesField1 1 (simpleParams 0)).rivers 0 = 1)) :=
  ⟨rfl, computeRivers_threshold_C4 onesField1 1 (simpleParams 0) (by norm_num)
    (by decide) (by decide) 0 (by norm_num) (by norm_num) 1 rfl⟩

theorem bget_neg (f : List ℕ) (i : ℤ) (hi : i < 0) : bget f i = 0 := by
  unfold bget
  rw [if_neg (by omega)]

theorem bget_linearFold_notmem (g : ℤ → ℕ) (idxs : List ℤ) (f0 : List ℕ)
    (i : ℤ) (hni : i ∉ idxs) :
    bget (idxs.foldl (fun o j => bset o j (g j)) f0) i = bget f0 i := by
  induction idxs generalizing f0 with
  | nil => rfl
  | cons j js ih =>
    rw [show (j :: js).foldl (fun o j => bset o j (g j)) f0 =
      js.foldl (fun o j => bset o j (g j)) (bset f0 j (g j)) from rfl]
    rw [ih _ (fun hm => hni (List.mem_cons_of_mem _ hm))]
    exact bget_bset_ne _ _ _ _ (fun he => hni (he ▸ List.mem_cons_self j js))

theorem bget_natCast (f : List ℕ) (k : ℕ) : bget f (k : ℤ) = f.getD k 0 := by
  unfold bget
  rw [if_pos (Int.ofNat_nonneg k)]
  simp

theorem count_one_mono (l2 : List ℕ) : ∀ l1 : List ℕ,
    l1.length = l2.length →
    (∀ k : ℕ, k < l2.length → l2.getD k 0 = 1 → l1.getD k 0 = 1) →
    l2.count 1 ≤ l1.count 1 := by
  induction l2 with
  | nil =>
    intro l1 _ _
    simp
  | cons b bs ih =>
    intro l1 hlen hmono
    cases l1 with
    | nil => simp at hlen
    | cons a as =>
      have hlen' : as.length = bs.length := by simpa using hlen
      have hmono' : ∀ k, k < bs.length → bs.getD k 0 = 1 → as.getD k 0 = 1 := by
        intro k hk hbk
        have hres := hmono (k + 1) (by simpa using hk)
          (by simpa using hbk)
        simpa using hres
      have hcount := ih as hlen' hmono'
      by_cases hb : b = 1
      · have ha : a = 1 := hmono 0 (by simp) (by simpa using hb)
        subst hb
        subst ha
        rw [List.count_cons_self, List.count_cons_self]
        omega
      · have h1b : ¬ (b == 1) = true := by simpa using hb
        rw [List.count_cons, List.count_cons, if_neg h1b]
        split <;> omega

theorem jle_num_mono (t1 t2 : ℚ) (v : JsNum) (ht : t1 ≤ t2)
    (h : jle (num t2) v = true) : jle (num t1) v = true := by
  cases v with
  | nan => simp [jle] at h
  | inf => rfl
  | ninf => simp [jle] at h
  | num b =>
    simp only [jle, decide_eq_true_eq] at h ⊢
    linarith

/-- Lowering the threshold can only turn mask bits on, never off. -/
theorem riverMaskAt_mono (height accum : List JsNum) (sea t1 t2 : ℚ)
    (invMax : JsNum) (i : ℤ) (ht : t1 ≤ t2)
    (h1 : riverMaskAt height accum sea t2 invMax i = 1) :
    riverMaskAt height accum sea t1 invMax i = 1 := by
  unfold riverMaskAt at h1 ⊢
  dsimp only at h1 ⊢
  by_cases hz : (jle (jget height i) (num sea)) = true
  · rw [if_pos hz] at h1
    exact absurd h1 (by norm_num)
  · rw [if_neg hz] at h1 ⊢
    by_cases ha2 : jle (num t2) (jmul (jget accum i) invMax) = true
    · rw [if_pos (jle_num_mono t1 t2 _ ht ha2)]
    · rw [if_neg ha2] at h1
      exact absurd h1 (by norm_num)

/-- **C5** — confirmed.  For a fixed height field and sea level the river
mask is antitone in the threshold: every cell marked river at threshold
`t2` is still marked at any `t1 ≤ t2`, and the count of river cells at
`t2` is at most the count at `t1`. -/
theorem riverThreshold_antitone_C5 (f : Fields) (size : ℤ) (p : SimParams)
    (t1 t2 : ℚ) (ht : t1 ≤ t2)
    (hlenr : f.rivers.length = (size * size).toNat) :
    (∀ i : ℤ,
      bget (computeRivers f size { p with riverThreshold := t2 }).rivers i = 1 →
      bget (computeRivers f size { p with riverThreshold := t1 }).rivers i = 1) ∧
    (computeRivers f size { p with riverThreshold := t2 }).rivers.count 1 ≤
      (computeRivers f size { p with riverThreshold := t1 }).rivers.count 1 := by
  have h2 : (computeRivers f size { p with riverThreshold := t2 }).rivers =
      (intRange 0 (size * size - 1)).foldl (fun rv i =>
        bset rv i (riverMaskAt f.height (flowAccum f size p)
          p.climate.seaLevel t2 (invMaxOf (flowAccum f size p)) i)) f.rivers := rfl
  have h1 : (computeRivers f size { p with riverThreshold := t1 }).rivers =
      (intRange 0 (size * size - 1)).foldl (fun rv i =>
        bset rv i (riverMaskAt f.height (flowAccum f size p)
          p.climate.seaLevel t1 (invMaxOf (flowAccum f size p)) i)) f.rivers := rfl
  have hpt : ∀ i : ℤ,
      bget (computeRivers f size { p with riverThreshold := t2 }).rivers i = 1 →
      bget (computeRivers f size { p with riverThreshold := t1 }).rivers i = 1 := by
    intro i hbit
    rw [h2] at hbit
    rw [h1]
    rcases lt_or_le i 0 with hi | hi0
    · rw [bget_neg _ _ hi] at hbit
      exact absurd hbit (by norm_num)
    · by_cases hmem : i ∈ intRange 0 (size * size - 1)
      · have hi1 : i ≤ size * size - 1 := (mem_intRange.mp hmem).2
        have hlen : i.toNat < f.rivers.length := by rw [hlenr]; omega
        rw [bget_linearFold _ _ _ (intRange_nodup _ _) i hi0 hlen] at hbit ⊢
        rw [if_pos hmem] at hbit ⊢
        exact riverMaskAt_mono f.height (flowAccum f size p)
          p.climate.seaLevel t1 t2 (invMaxOf (flowAccum f size p)) i ht hbit
      · rw [bget_linearFold_notmem _ _ _ _ hmem] at hbit
        rw [bget_linearFold_notmem _ _ _ _ hmem]
        exact hbit
  refine ⟨hpt, ?_⟩
  apply count_one_mono
  · rw [h1, h2, length_linearFold, length_linearFold]
  · intro k hk hk2
    have hlen2 : (computeRivers f size
        { p with riverThreshold := t2 }).rivers.length = f.rivers.length := by
      rw [h2, length_linearFold]
    have hbit2 : bget (computeRivers f size
        { p with riverThreshold := t2 }).rivers (k : ℤ) = 1 := by
      rw [bget_natCast]
      exact hk2
    have hbit1 := hpt (k : ℤ) hbit2
    rw [bget_natCast] at hbit1
    exact hbit1

theorem riverThreshold_antitone_C5_witness :
    (0 : ℚ) ≤ 1 ∧
    ((∀ i : ℤ,
      bget (computeRivers onesField1 1
        { simpleParams 0 with riverThreshold := (1 : ℚ) }).rivers i = 1 →
      bget (computeRivers onesField1 1
        { simpleParams 0 with riverThreshold := (0 : ℚ) }).rivers i = 1) ∧
     (computeRivers onesField1 1
        { simpleParams 0 with riverThreshold := (1 : ℚ) }).rivers.count 1 ≤
      (computeRivers onesField1 1
        { simpleParams 0 with riverThreshold := (0 : ℚ) }).rivers.count 1) :=
  ⟨by norm_num, riverThreshold_antitone_C5 onesField1 1 (simpleParams 0) 0 1
    (by norm_num) (by decide)⟩

/-- The raw (pre-normalisation) sample of `generateHeightField` at a cell. -/
def hfRaw (seed : ℕ) (np : NoiseParams) (baseFreq : ℚ) (c : ℤ × ℤ) : ℚ :=
  rawHeight seed np baseFreq c.1 c.2

/-- One step of the first pass of `generateHeightField`: write the raw
sample and update the running min/max. -/
def hfStep (seed : ℕ) (np : NoiseParams) (baseFreq : ℚ) (size : ℤ)
    (st : List JsNum × JsNum × JsNum) (c : ℤ × ℤ) :
    List JsNum × JsNum × JsNum :=
  let v := hfRaw seed np baseFreq c
  (jset st.1 (c.2 * size + c.1) (num v),
   if jlt (num v) st.2.1 then num v else st.2.1,
   if jlt st.2.2 (num v) then num v else st.2.2)

/-- A fold over the cells of a rectangle is the nested row/column loop,
for an arbitrary accumulator type. -/
theorem foldl_rect {α : Type _} (g : α → ℤ × ℤ → α) (r : DirtyRect) (a0 : α) :
    (rectCells r).foldl g a0 =
      (intRange r.y0 r.y1).foldl (fun a y =>
        (intRange r.x0 r.x1).foldl (fun a x => g a (x, y)) a) a0 := by
  unfold rectCells
  generalize intRange r.y0 r.y1 = ys
  induction ys generalizing a0 with
  | nil => rfl
  | cons y ys ih =>
    rw [List.flatMap_cons, List.foldl_append, List.foldl_map]
    exact ih _

/-- The triple-state first pass of `generateHeightField` splits into three
independent folds: the raw writes, the running minimum, the running
maximum. -/
theorem hfFold_split (seed : ℕ) (np : NoiseParams) (baseFreq : ℚ) (size : ℤ)
    (cs : List (ℤ × ℤ)) : ∀ st : List JsNum × JsNum × JsNum,
    cs.foldl (hfStep seed np baseFreq size) st =
      (cellFold size (fun x y _ => some (num (hfRaw seed np baseFreq (x, y)))) cs st.1,
       cs.foldl (fun m c => if jlt (num (hfRaw seed np baseFreq c)) m
         then num (hfRaw seed np baseFreq c) else m) st.2.1,
       cs.foldl (fun m c => if jlt m (num (hfRaw seed np baseFreq c))
         then num (hfRaw seed np baseFreq c) else m) st.2.2) := by
  induction cs with
  | nil =>
    intro st
    rfl
  | cons c cs ih =>
    intro st
    rw [List.foldl_cons, ih]
    rfl

/-- The initial state of the first pass of `generateHeightField`. -/
def hfInit (size : ℕ) : List JsNum × JsNum × JsNum :=
  (List.replicate (size * size) (num 0), JsNum.inf, JsNum.ninf)

/-- The state after the first pass of `generateHeightField`: the raw
values together with the running min and max. -/
def hfState (size seed : ℕ) (np : NoiseParams) (baseFreq : ℚ) :
    List JsNum × JsNum × JsNum :=
  (rectCells (rectAll (size : ℤ))).foldl
    (hfStep seed np baseFreq (size : ℤ)) (hfInit size)

/-- The normalisation factor of `generateHeightField`
(`maxV > minV ? 1/(maxV-minV) : 1`). -/
def hfInvOf (st : List JsNum × JsNum × JsNum) : JsNum :=
  if jlt st.2.1 st.2.2 then jdiv (num 1) (jsub st.2.2 st.2.1) else num 1

theorem generateHeightField_eq (size seed : ℕ) (p : SimParams) (baseFreq : ℚ) :
    generateHeightField size seed p baseFreq =
      cellFold (size : ℤ)
        (fun _ _ cur => some (jmul (jsub cur (hfState size seed p.noise baseFreq).2.1)
          (hfInvOf (hfState size seed p.noise baseFreq))))
        (rectCells (rectAll (size : ℤ)))
        (hfState size seed p.noise baseFreq).1 := by
  rw [cellFold_rect]
  rw [show hfState size seed p.noise baseFreq =
    (intRange 0 ((size : ℤ) - 1)).foldl (fun st y =>
      (intRange 0 ((size : ℤ) - 1)).foldl
        (fun st x => hfStep seed p.noise baseFreq (size : ℤ) st (x, y)) st)
      (hfInit size)
    from foldl_rect (hfStep seed p.noise baseFreq (size : ℤ)) (rectAll (size : ℤ)) (hfInit size)]
  rfl

theorem hfState_fst (size seed : ℕ) (np : NoiseParams) (baseFreq : ℚ) :
    (hfState size seed np baseFreq).1 =
      cellFold (size : ℤ) (fun x y _ => some (num (hfRaw seed np baseFreq (x, y))))
        (rectCells (rectAll (size : ℤ))) (List.replicate (size * size) (num 0)) := by
  unfold hfState
  rw [hfFold_split]
  rfl

theorem hfState_min (size seed : ℕ) (np : NoiseParams) (baseFreq : ℚ) :
    (hfState size seed np baseFreq).2.1 =
      (rectCells (rectAll (size : ℤ))).foldl
        (fun m c => if jlt (num (hfRaw seed np baseFreq c)) m
          then num (hfRaw seed np baseFreq c) else m) JsNum.inf := by
  unfold hfState
  rw [hfFold_split]
  rfl

theorem hfState_max (size seed : ℕ) (np : NoiseParams) (baseFreq : ℚ) :
    (hfState size seed np baseFreq).2.2 =
      (rectCells (rectAll (size : ℤ))).foldl
        (fun m c => if jlt m (num (hfRaw seed np baseFreq c))
          then num (hfRaw seed np baseFreq c) else m) JsNum.ninf := by
  unfold hfState
  rw [hfFold_split]
  rfl

theorem minFold_num_cells (raw : ℤ × ℤ → ℚ) (cs : List (ℤ × ℤ)) :
    ∀ m0 : ℚ, ∃ mn : ℚ,
      cs.foldl (fun m c => if jlt (num (raw c)) m then num (raw c) else m)
        (num m0) = num mn ∧
      (mn = m0 ∨ ∃ c ∈ cs, raw c = mn) ∧ mn ≤ m0 ∧ ∀ c ∈ cs, mn ≤ raw c := by
  induction cs with
  | nil =>
    intro m0
    exact ⟨m0, rfl, Or.inl rfl, le_refl m0, by simp⟩
  | cons c cs ih =>
    intro m0
    rw [List.foldl_cons]
    by_cases hq : raw c < m0
    · have hlt : jlt (num (raw c)) (num m0) = true := by
        rw [jlt_num]; exact decide_eq_true hq
      rw [if_pos hlt]
      obtain ⟨mn, heq, hmem, hle, hall⟩ := ih (raw c)
      refine ⟨mn, heq, ?_, by linarith, ?_⟩
      · rcases hmem with heq' | ⟨c', hc', hc'e⟩
        · exact Or.inr ⟨c, List.mem_cons_self c cs, heq'.symm⟩
        · exact Or.inr ⟨c', List.mem_cons_of_mem c hc', hc'e⟩
      · intro c' hc'
        rcases List.mem_cons.mp hc' with rfl | hc'
        · exact hle
        · exact hall c' hc'
    · have hnlt : ¬ (jlt (num (raw c)) (num m0) = true) := by
        rw [jlt_num]; simpa using hq
      rw [if_neg hnlt]
      obtain ⟨mn, heq, hmem, hle, hall⟩ := ih m0
      refine ⟨mn, heq, ?_, hle, ?_⟩
      · rcases hmem with heq' | ⟨c', hc', hc'e⟩
        · exact Or.inl heq'
        · exact Or.inr ⟨c', List.mem_cons_of_mem c hc', hc'e⟩
      · intro c' hc'
        rcases List.mem_cons.mp hc' with rfl | hc'
        · linarith [not_lt.mp hq]
        · exact hall c' hc'

theorem maxFold_num_cells (raw : ℤ × ℤ → ℚ) (cs : List (ℤ × ℤ)) :
    ∀ m0 : ℚ, ∃ mx : ℚ,
      cs.foldl (fun m c => if jlt m (num (raw c)) then num (raw c) else m)
        (num m0) = num mx ∧
      (mx = m0 ∨ ∃ c ∈ cs, raw c = mx) ∧ m0 ≤ mx ∧ ∀ c ∈ cs, raw c ≤ mx := by
  induction cs with
  | nil =>
    intro m0
    exact ⟨m0, rfl, Or.inl rfl, le_refl m0, by simp⟩
  | cons c cs ih =>
    intro m0
    rw [List.foldl_cons]
    by_cases hq : m0 < raw c
    · have hlt : jlt (num m0) (num (raw c)) = true := by
        rw [jlt_num]; exact decide_eq_true hq
      rw [if_pos hlt]
      obtain ⟨mx, heq, hmem, hle, hall⟩ := ih (raw c)
      refine ⟨mx, heq, ?_, by linarith, ?_⟩
      · rcases hmem with heq' | ⟨c', hc', hc'e⟩
        · exact Or.inr ⟨c, List.mem_cons_self c cs, heq'.symm⟩
        · exact Or.inr ⟨c', List.mem_cons_of_mem c hc', hc'e⟩
      · intro c' hc'
        rcases List.mem_cons.mp hc' with rfl | hc'
        · exact hle
        · exact hall c' hc'
    · have hnlt : ¬ (jlt (num m0) (num (raw c)) = true) := by
        rw [jlt_num]; simpa using hq
      rw [if_neg hnlt]
      obtain ⟨mx, heq, hmem, hle, hall⟩ := ih m0
      refine ⟨mx, heq, ?_, hle, ?_⟩
      · rcases hmem with heq' | ⟨c', hc', hc'e⟩
        · exact Or.inl heq'
        · exact Or.inr ⟨c', List.mem_cons_of_mem c hc', hc'e⟩
      · intro c' hc'
        rcases List.mem_cons.mp hc' with rfl | hc'
        · linarith [not_lt.mp hq]
        · exact hall c' hc'

theorem minFold_inf_cells (raw : ℤ × ℤ → ℚ) (cs : List (ℤ × ℤ))
    (hne : cs ≠ []) : ∃ mn : ℚ,
      cs.foldl (fun m c => if jlt (num (raw c)) m then num (raw c) else m)
        JsNum.inf = num mn ∧
      (∃ c ∈ cs, raw c = mn) ∧ ∀ c ∈ cs, mn ≤ raw c := by
  cases cs with
  | nil => exact absurd rfl hne
  | cons c cs =>
    rw [List.foldl_cons]
    have hc : jlt (num (raw c)) JsNum.inf = true := rfl
    rw [if_pos hc]
    obtain ⟨mn, heq, hmem, hle, hall⟩ := minFold_num_cells raw cs (raw c)
    refine ⟨mn, heq, ?_, ?_⟩
    · rcases hmem with heq' | ⟨c', hc', hc'e⟩
      · exact ⟨c, List.mem_cons_self c cs, heq'.symm⟩
      · exact ⟨c', List.mem_cons_of_mem c hc', hc'e⟩
    · intro c' hc'
      rcases List.mem_cons.mp hc' with rfl | hc'
      · exact hle
      · exact hall c' hc'

theorem maxFold_ninf_cells (raw : ℤ × ℤ → ℚ) (cs : List (ℤ × ℤ))
    (hne : cs ≠ []) : ∃ mx : ℚ,
      cs.foldl (fun m c => if jlt m (num (raw c)) then num (raw c) else m)
        JsNum.ninf = num mx ∧
      (∃ c ∈ cs, raw c = mx) ∧ ∀ c ∈ cs, raw c ≤ mx := by
  cases cs with
  | nil => exact absurd rfl hne
  | cons c cs =>
    rw [List.foldl_cons]
    have hc : jlt JsNum.ninf (num (raw c)) = true := rfl
    rw [if_pos hc]
    obtain ⟨mx, heq, hmem, hle, hall⟩ := maxFold_num_cells raw cs (raw c)
    refine ⟨mx, heq, ?_, ?_⟩
    · rcases hmem with heq' | ⟨c', hc', hc'e⟩
      · exact ⟨c, List.mem_cons_self c cs, heq'.symm⟩
      · exact ⟨c', List.mem_cons_of_mem c hc', hc'e⟩
    · intro c' hc'
      rcases List.mem_cons.mp hc' with rfl | hc'
      · exact hle
      · exact hall c' hc'

/-- **C6** — confirmed (island mask off, as deployed).  For every size ≥ 1,
seed and octave count ≥ 1, the heightfield generator normalises its raw
samples so that every written cell is a finite value in [0,1]; any cell
whose raw sample equals the raw minimum is mapped to exactly 0, and — when
not all raw samples are equal — any cell whose raw sample equals the raw
maximum is mapped to exactly 1 (when all samples are equal the identity
scale applies and every cell maps to 0). -/
theorem generateHeight_normalized_C6 (size seed : ℕ) (p : SimParams)
    (baseFreq : ℚ) (hpos : 0 < size) (hoct : 1 ≤ p.noise.octaves) :
    ∃ mn mx : ℚ,
      (∃ c ∈ rectCells (rectAll (size : ℤ)), hfRaw seed p.noise baseFreq c = mn) ∧
      (∃ c ∈ rectCells (rectAll (size : ℤ)), hfRaw seed p.noise baseFreq c = mx) ∧
      (∀ c ∈ rectCells (rectAll (size : ℤ)),
        mn ≤ hfRaw seed p.noise baseFreq c ∧ hfRaw seed p.noise baseFreq c ≤ mx) ∧
      ∀ x y : ℤ, 0 ≤ x → x < (size : ℤ) → 0 ≤ y → y < (size : ℤ) →
        ∃ q : ℚ,
          jget (generateHeightField size seed p baseFreq) (y * (size : ℤ) + x) = num q ∧
          0 ≤ q ∧ q ≤ 1 ∧
          (hfRaw seed p.noise baseFreq (x, y) = mn → q = 0) ∧
          (mn < mx → hfRaw seed p.noise baseFreq (x, y) = mx → q = 1) := by
  have hSpos : (0 : ℤ) < (size : ℤ) := by exact_mod_cast hpos
  have hmem00 : ((0, 0) : ℤ × ℤ) ∈ rectCells (rectAll (size : ℤ)) := by
    rw [mem_rectCells]
    refine ⟨⟨le_refl 0, ?_⟩, le_refl 0, ?_⟩
    · show (0 : ℤ) ≤ (size : ℤ) - 1
      omega
    · show (0 : ℤ) ≤ (size : ℤ) - 1
      omega
  have hne : rectCells (rectAll (size : ℤ)) ≠ [] := List.ne_nil_of_mem hmem00
  obtain ⟨mn, hmnEq, hmnMem, hmnAll⟩ :=
    minFold_inf_cells (hfRaw seed p.noise baseFreq) _ hne
  obtain ⟨mx, hmxEq, hmxMem, hmxAll⟩ :=
    maxFold_ninf_cells (hfRaw seed p.noise baseFreq) _ hne
  have hmin : (hfState size seed p.noise baseFreq).2.1 = num mn := by
    rw [hfState_min]; exact hmnEq
  have hmax : (hfState size seed p.noise baseFreq).2.2 = num mx := by
    rw [hfState_max]; exact hmxEq
  refine ⟨mn, mx, hmnMem, hmxMem, fun c hc => ⟨hmnAll c hc, hmxAll c hc⟩, ?_⟩
  intro x y hx hx' hy hy'
  have hb1 : y * (size : ℤ) ≤ ((size : ℤ) - 1) * (size : ℤ) :=
    mul_le_mul_of_nonneg_right (by omega) (by omega)
  have hb2 : ((size : ℤ) - 1) * (size : ℤ) = (size : ℤ) * (size : ℤ) - (size : ℤ) := by
    ring
  have hb0 : 0 ≤ y * (size : ℤ) + x := by
    have h5 : 0 ≤ y * (size : ℤ) := mul_nonneg hy (by omega)
    linarith
  have h4 : y * (size : ℤ) + x < ((size * size : ℕ) : ℤ) := by
    push_cast
    linarith
  have hlen : (y * (size : ℤ) + x).toNat < size * size := by
    generalize hg1 : y * (size : ℤ) + x = t at hb0 h4 ⊢
    generalize hg2 : size * size = n at h4 ⊢
    omega
  have hcond : (rectAll (size : ℤ)).x0 ≤ x ∧ x ≤ (rectAll (size : ℤ)).x1 ∧
      (rectAll (size : ℤ)).y0 ≤ y ∧ y ≤ (rectAll (size : ℤ)).y1 := by
    refine ⟨hx, ?_, hy, ?_⟩
    · show x ≤ (size : ℤ) - 1
      omega
    · show y ≤ (size : ℤ) - 1
      omega
  have hrx0 : (0 : ℤ) ≤ (rectAll (size : ℤ)).x0 := le_refl 0
  have hrx1 : (rectAll (size : ℤ)).x1 ≤ (size : ℤ) - 1 := le_refl _
  have hraw : jget ((hfState size seed p.noise baseFreq).1) (y * (size : ℤ) + x) =
      num (hfRaw seed p.noise baseFreq (x, y)) := by
    rw [hfState_fst]
    rw [jget_cellFold_rect (size : ℤ) hSpos _ (rectAll (size : ℤ)) _ hrx0 hrx1
      x y hx hx' hy hy' (by rw [List.length_replicate]; exact hlen)]
    rw [if_pos hcond]
  have hlen2 : (y * (size : ℤ) + x).toNat <
      ((hfState size seed p.noise baseFreq).1).length := by
    rw [hfState_fst, length_cellFold, List.length_replicate]
    exact hlen
  have hmain : jget (generateHeightField size seed p baseFreq) (y * (size : ℤ) + x) =
      jmul (jsub (num (hfRaw seed p.noise baseFreq (x, y))) (num mn))
        (hfInvOf (hfState size seed p.noise baseFreq)) := by
    rw [generateHeightField_eq]
    rw [jget_cellFold_rect (size : ℤ) hSpos _ (rectAll (size : ℤ)) _ hrx0 hrx1
      x y hx hx' hy hy' hlen2]
    rw [if_pos hcond]
    show jmul (jsub (jget ((hfState size seed p.noise baseFreq).1)
        (y * (size : ℤ) + x)) ((hfState size seed p.noise baseFreq).2.1))
      (hfInvOf (hfState size seed p.noise baseFreq)) = _
    rw [hraw, hmin]
  have hRmn : mn ≤ hfRaw seed p.noise baseFreq (x, y) :=
    hmnAll _ (mem_rectCells.mpr ⟨⟨hcond.1, hcond.2.1⟩, hcond.2.2.1, hcond.2.2.2⟩)
  have hRmx : hfRaw seed p.noise baseFreq (x, y) ≤ mx :=
    hmxAll _ (mem_rectCells.mpr ⟨⟨hcond.1, hcond.2.1⟩, hcond.2.2.1, hcond.2.2.2⟩)
  by_cases hlt : mn < mx
  · have hinv : hfInvOf (hfState size seed p.noise baseFreq) = num (1 / (mx - mn)) := by
      unfold hfInvOf
      rw [hmin, hmax, jlt_num, if_pos (decide_eq_true hlt), jsub_num,
        jdiv_num _ _ (show mx - mn ≠ 0 from ne_of_gt (by linarith))]
    refine ⟨(hfRaw seed p.noise baseFreq (x, y) - mn) * (1 / (mx - mn)),
      ?_, ?_, ?_, ?_, ?_⟩
    · rw [hmain, hinv, jsub_num, jmul_num]
    · exact mul_nonneg (by linarith) (one_div_nonneg.mpr (by linarith))
    · rw [mul_one_div]
      exact (div_le_one (by linarith)).mpr (by linarith)
    · intro hmin'
      rw [hmin', sub_self, zero_mul]
    · intro _ hmax'
      rw [hmax', mul_one_div, div_self (ne_of_gt (by linarith))]
  · have hRe : hfRaw seed p.noise baseFreq (x, y) = mn :=
      le_antisymm (by linarith [not_lt.mp hlt]) hRmn
    have hinv1 : hfInvOf (hfState size seed p.noise baseFreq) = num 1 := by
      unfold hfInvOf
      rw [hmin, hmax, jlt_num, if_neg (by simpa using hlt)]
    refine ⟨0, ?_, le_refl 0, by norm_num, fun _ => rfl,
      fun hcon _ => absurd hcon hlt⟩
    rw [hmain, hinv1, hRe, jsub_num, jmul_num, sub_self, zero_mul]

theorem generateHeight_normalized_C6_witness :
    0 < 1 ∧ 1 ≤ (simpleParams 0).noise.octaves ∧
    (∃ mn mx : ℚ,
      (∃ c ∈ rectCells (rectAll ((1 : ℕ) : ℤ)),
        hfRaw 1 (simpleParams 0).noise 0 c = mn) ∧
      (∃ c ∈ rectCells (rectAll ((1 : ℕ) : ℤ)),
        hfRaw 1 (simpleParams 0).noise 0 c = mx) ∧
      (∀ c ∈ rectCells (rectAll ((1 : ℕ) : ℤ)),
        mn ≤ hfRaw 1 (simpleParams 0).noise 0 c ∧
        hfRaw 1 (simpleParams 0).noise 0 c ≤ mx) ∧
      ∀ x y : ℤ, 0 ≤ x → x < ((1 : ℕ) : ℤ) → 0 ≤ y → y < ((1 : ℕ) : ℤ) →
        ∃ q : ℚ,
          jget (generateHeightField 1 1 (simpleParams 0) 0)
            (y * ((1 : ℕ) : ℤ) + x) = num q ∧
          0 ≤ q ∧ q ≤ 1 ∧
          (hfRaw 1 (simpleParams 0).noise 0 (x, y) = mn → q = 0) ∧
          (mn < mx → hfRaw 1 (simpleParams 0).noise 0 (x, y) = mx → q = 1)) :=
  ⟨Nat.one_pos, le_refl 1,
    generateHeight_normalized_C6 1 1 (simpleParams 0) 0 Nat.one_pos (le_refl 1)⟩

theorem fieldsExt (a b : Fields) (hh : a.height = b.height)
    (ht : a.temperature = b.temperature) (hm : a.moisture = b.moisture)
    (hr : a.rivers = b.rivers) (hb : a.biomes = b.biomes) : a = b := by
  cases a
  cases b
  simp_all

theorem jget_natCast (l : List JsNum) (k : ℕ) (hk : k < l.length) :
    jget l (k : ℤ) = l.get ⟨k, hk⟩ := by
  unfold jget
  rw [if_pos (Int.ofNat_nonneg k)]
  simp [List.getD_eq_getElem?_getD, List.getElem?_eq_getElem hk]

theorem list_ext_jget (l1 l2 : List JsNum) (hlen : l1.length = l2.length)
    (h : ∀ k : ℕ, k < l1.length → jget l1 (k : ℤ) = jget l2 (k : ℤ)) :
    l1 = l2 := by
  apply List.ext_getElem hlen
  intro k hk1 hk2
  have hE := h k hk1
  rw [jget_natCast l1 k hk1, jget_natCast l2 k hk2] at hE
  exact hE

theorem bget_natCast_get (l : List ℕ) (k : ℕ) (hk : k < l.length) :
    bget l (k : ℤ) = l.get ⟨k, hk⟩ := by
  unfold bget
  rw [if_pos (Int.ofNat_nonneg k)]
  simp [List.getD_eq_getElem?_getD, List.getElem?_eq_getElem hk]

theorem list_ext_bget (l1 l2 : List ℕ) (hlen : l1.length = l2.length)
    (h : ∀ k : ℕ, k < l1.length → bget l1 (k : ℤ) = bget l2 (k : ℤ)) :
    l1 = l2 := by
  apply List.ext_getElem hlen
  intro k hk1 hk2
  have hE := h k hk1
  rw [bget_natCast_get l1 k hk1, bget_natCast_get l2 k hk2] at hE
  exact hE

theorem linear_decomp (size k : ℕ) (hpos : 0 < size) (hk : k < size * size) :
    ∃ x y : ℤ, 0 ≤ x ∧ x < (size : ℤ) ∧ 0 ≤ y ∧ y < (size : ℤ) ∧
      y * (size : ℤ) + x = (k : ℤ) := by
  refine ⟨((k % size : ℕ) : ℤ), ((k / size : ℕ) : ℤ), Int.ofNat_nonneg _, ?_,
    Int.ofNat_nonneg _, ?_, ?_⟩
  · exact_mod_cast Nat.mod_lt k hpos
  · exact_mod_cast (Nat.div_lt_iff_lt_mul hpos).mpr hk
  · have hM := Nat.div_add_mod k size
    rw [Nat.mul_comm] at hM
    exact_mod_cast hM

/-- `tempAt` reads only the cell's own height. -/
theorem tempAt_congr (hf h1 : List JsNum) (size : ℤ) (lapse : ℚ) (x y : ℤ)
    (hO : jget h1 (y * size + x) = jget hf (y * size + x)) :
    tempAt h1 size lapse x y = tempAt hf size lapse x y := by
  unfold tempAt
  rw [hO]

/-- `moistAt` reads only the heights of the cell and its west/east
neighbors. -/
theorem moistAt_congr (hf h1 : List JsNum) (size : ℤ) (shift : ℚ) (x y : ℤ)
    (hO : jget h1 (y * size + x) = jget hf (y * size + x))
    (hL : 0 < x → jget h1 (y * size + (x - 1)) = jget hf (y * size + (x - 1)))
    (hR : x < size - 1 → jget h1 (y * size + (x + 1)) = jget hf (y * size + (x + 1))) :
    moistAt h1 size shift x y = moistAt hf size shift x y := by
  unfold moistAt
  dsimp only
  by_cases hxl : 0 < x <;> by_cases hxr : x < size - 1
  · rw [if_pos hxl, if_pos hxl, if_pos hxr, if_pos hxr, hO, hL hxl, hR hxr]
  · rw [if_pos hxl, if_pos hxl, if_neg hxr, if_neg hxr, hO, hL hxl]
  · rw [if_neg hxl, if_neg hxl, if_pos hxr, if_pos hxr, hO, hR hxr]
  · rw [if_neg hxl, if_neg hxl, if_neg hxr, if_neg hxr, hO]

/-- A cell outside the (pad 1) stroke bounds is strictly outside the brush
disk, and so is any horizontal 1-neighbor of it: the stroke rectangle covers
the disk of radius `radius + 1` intersected with the grid. -/
theorem outside_bounds_far (cx cy radius : ℚ) (size : ℤ) (x y x' : ℤ)
    (hsize : 1 ≤ size) (hrad : 0 < radius)
    (hcx0 : 0 ≤ cx) (hcx1 : cx ≤ (size : ℚ) - 1)
    (hcy0 : 0 ≤ cy) (hcy1 : cy ≤ (size : ℚ) - 1)
    (hx : 0 ≤ x) (hx1 : x < size) (hy : 0 ≤ y) (hy1 : y < size)
    (hxx : x - 1 ≤ x') (hxx' : x' ≤ x + 1)
    (hout : ¬((strokeBounds cx cy radius size 1).x0 ≤ x ∧
        x ≤ (strokeBounds cx cy radius size 1).x1 ∧
        (strokeBounds cx cy radius size 1).y0 ≤ y ∧
        y ≤ (strokeBounds cx cy radius size 1).y1)) :
    radius * radius < distSq cx cy x' y := by
  by_contra hc
  have hd : distSq cx cy x' y ≤ radius * radius := not_lt.mp hc
  unfold distSq at hd
  have hdx2 : ((x' : ℚ) - cx) * ((x' : ℚ) - cx) ≤ radius * radius := by
    nlinarith [mul_self_nonneg ((y : ℚ) - cy)]
  have hdy2 : ((y : ℚ) - cy) * ((y : ℚ) - cy) ≤ radius * radius := by
    nlinarith [mul_self_nonneg ((x' : ℚ) - cx)]
  have habsx : |(x' : ℚ) - cx| ≤ radius := by
    by_contra hcc
    push_neg at hcc
    have h2 : radius * radius < |(x' : ℚ) - cx| * |(x' : ℚ) - cx| := by
      nlinarith [abs_nonneg ((x' : ℚ) - cx)]
    rw [abs_mul_abs_self] at h2
    linarith
  have habsy : |(y : ℚ) - cy| ≤ radius := by
    by_contra hcc
    push_neg at hcc
    have h2 : radius * radius < |(y : ℚ) - cy| * |(y : ℚ) - cy| := by
      nlinarith [abs_nonneg ((y : ℚ) - cy)]
    rw [abs_mul_abs_self] at h2
    linarith
  have hstep : |(x : ℚ) - (x' : ℚ)| ≤ 1 := by
    have h1 : ((x - 1 : ℤ) : ℚ) ≤ ((x' : ℤ) : ℚ) := by exact_mod_cast hxx
    have h2 : ((x' : ℤ) : ℚ) ≤ ((x + 1 : ℤ) : ℚ) := by exact_mod_cast hxx'
    push_cast at h1 h2
    rw [abs_le]
    constructor <;> linarith
  have habsX : |(x : ℚ) - cx| ≤ radius + 1 := by
    calc |(x : ℚ) - cx| ≤ |(x : ℚ) - (x' : ℚ)| + |(x' : ℚ) - cx| :=
          abs_sub_le _ _ _
      _ ≤ 1 + radius := add_le_add hstep habsx
      _ = radius + 1 := by ring
  have hax := strokeBounds_axis cx radius size 1 (le_refl 1) hrad hsize hcx0 hcx1
  have hay := strokeBounds_axis cy radius size 1 (le_refl 1) hrad hsize hcy0 hcy1
  have hxin := hax.2.2.2 x hx hx1 (by push_cast; linarith)
  have hyin := hay.2.2.2 y hy hy1 (by push_cast; linarith)
  exact hout ⟨hxin.1, hxin.2, hyin.1, hyin.2⟩

/-- A raise/lower stamp followed by the clamp leaves a cell untouched when
the cell is strictly outside the disk and its original value is in
`[0,1]`. -/
theorem raiseLike_height_unchanged (fall2 : ℚ → ℚ) (height : List JsNum)
    (size : ℤ) (cx cy rad s : ℚ) (B : DirtyRect) (hpos : 0 < size)
    (hBx0 : 0 ≤ B.x0) (hBx1 : B.x1 ≤ size - 1)
    (x y : ℤ) (hx0 : 0 ≤ x) (hx1 : x < size) (hy0 : 0 ≤ y) (hy1 : y < size)
    (hlen : (y * size + x).toNat < height.length)
    (hskip : rad * rad < distSq cx cy x y)
    (q : ℚ) (hq : jget height (y * size + x) = num q)
    (hq0 : 0 ≤ q) (hq1 : q ≤ 1) :
    jget (clampRegion (radialAdd fall2 height size cx cy rad s) size B 0 1)
      (y * size + x) = jget height (y * size + x) := by
  have hrlen : (y * size + x).toNat <
      (radialAdd fall2 height size cx cy rad s).length := by
    rw [length_radialAdd]
    exact hlen
  have hrun : jget (radialAdd fall2 height size cx cy rad s) (y * size + x) =
      jget height (y * size + x) := by
    rw [jget_radialAdd fall2 height size cx cy rad s hpos x y hx0 hx1 hy0 hy1 hlen]
    rw [if_neg (fun hc => hc.2 hskip)]
  rw [jget_clampRegion _ size B 0 1 hpos hBx0 hBx1 x y hx0 hx1 hy0 hy1 hrlen]
  by_cases hin : B.x0 ≤ x ∧ x ≤ B.x1 ∧ B.y0 ≤ y ∧ y ≤ B.y1
  · rw [if_pos hin, hrun, hq, jclampNum_id q 0 1 hq0 hq1]
  · rw [if_neg hin, hrun]

/-- A rain stamp followed by the clamp leaves a cell outside the bounds
rectangle (hence outside the disk) untouched. -/
theorem rain_moist_unchanged (fall2 : ℚ → ℚ) (moisture : List JsNum)
    (size : ℤ) (cx cy rad s : ℚ) (B : DirtyRect) (hpos : 0 < size)
    (hBx0 : 0 ≤ B.x0) (hBx1 : B.x1 ≤ size - 1)
    (x y : ℤ) (hx0 : 0 ≤ x) (hx1 : x < size) (hy0 : 0 ≤ y) (hy1 : y < size)
    (hlen : (y * size + x).toNat < moisture.length)
    (hskip : rad * rad < distSq cx cy x y)
    (hnotin : ¬(B.x0 ≤ x ∧ x ≤ B.x1 ∧ B.y0 ≤ y ∧ y ≤ B.y1)) :
    jget (clampRegion (radialAdd fall2 moisture size cx cy rad s) size B 0 1)
      (y * size + x) = jget moisture (y * size + x) := by
  have hrlen : (y * size + x).toNat <
      (radialAdd fall2 moisture size cx cy rad s).length := by
    rw [length_radialAdd]
    exact hlen
  rw [jget_clampRegion _ size B 0 1 hpos hBx0 hBx1 x y hx0 hx1 hy0 hy1 hrlen,
    if_neg hnotin,
    jget_radialAdd fall2 moisture size cx cy rad s hpos x y hx0 hx1 hy0 hy1 hlen,
    if_neg (fun hc => hc.2 hskip)]

/-- Core of the partial-recompute equivalence: if the stored derived layers
are consistent with the stored height field, the new height field agrees
with the old one at every in-grid cell outside the dirty rectangle *and* at
every horizontal 1-neighbor of such a cell, and the new moisture field
agrees outside the rectangle, then the rectangle-restricted climate
derivation followed by river routing equals the full-grid one. -/
theorem partFull_core (size : ℕ) (p : SimParams) (f : Fields)
    (h1 m1 : List JsNum) (rect : DirtyRect)
    (hpos : 0 < (size : ℤ))
    (hlent : f.temperature.length = size * size)
    (hlenm : m1.length = size * size)
    (hlenb : f.biomes.length = size * size)
    (hrx0 : 0 ≤ rect.x0) (hrx1 : rect.x1 ≤ (size : ℤ) - 1)
    (hH : ∀ x y x' : ℤ, 0 ≤ x → x < (size : ℤ) → 0 ≤ y → y < (size : ℤ) →
      0 ≤ x' → x' < (size : ℤ) →
      ¬(rect.x0 ≤ x ∧ x ≤ rect.x1 ∧ rect.y0 ≤ y ∧ y ≤ rect.y1) →
      x - 1 ≤ x' → x' ≤ x + 1 →
      jget h1 (y * (size : ℤ) + x') = jget f.height (y * (size : ℤ) + x'))
    (hM : ∀ x y : ℤ, 0 ≤ x → x < (size : ℤ) → 0 ≤ y → y < (size : ℤ) →
      ¬(rect.x0 ≤ x ∧ x ≤ rect.x1 ∧ rect.y0 ≤ y ∧ y ≤ rect.y1) →
      jget m1 (y * (size : ℤ) + x) = jget f.moisture (y * (size : ℤ) + x))
    (hcons_t : ∀ x y : ℤ, 0 ≤ x → x < (size : ℤ) → 0 ≤ y → y < (size : ℤ) →
      jget f.temperature (y * (size : ℤ) + x) =
        tempAt f.height (size : ℤ) p.climate.tempLapse x y)
    (hcons_m : ∀ x y : ℤ, 0 ≤ x → x < (size : ℤ) → 0 ≤ y → y < (size : ℤ) →
      jget f.moisture (y * (size : ℤ) + x) =
        moistAt f.height (size : ℤ) p.climate.moistureShift x y)
    (hcons_b : ∀ x y : ℤ, 0 ≤ x → x < (size : ℤ) → 0 ≤ y → y < (size : ℤ) →
      bget f.biomes (y * (size : ℤ) + x) =
        biomeAt p.climate.seaLevel (jget f.height (y * (size : ℤ) + x))
          (jget f.temperature (y * (size : ℤ) + x))
          (jget f.moisture (y * (size : ℤ) + x))) :
    partRecompute size p { f with height := h1, moisture := m1 } rect =
      computeRivers (recomputeDerived { f with height := h1, moisture := m1 }
        (size : ℤ) p (rectAll (size : ℤ))) (size : ℤ) p := by
  have hposN : 0 < size := by exact_mod_cast hpos
  have hrx0All : (0 : ℤ) ≤ (rectAll (size : ℤ)).x0 := le_refl 0
  have hrx1All : (rectAll (size : ℤ)).x1 ≤ (size : ℤ) - 1 := le_refl _
  apply fieldsExt
  · rfl
  · show computeTemperature h1 (size : ℤ) p.climate.tempLapse f.temperature rect =
      computeTemperature h1 (size : ℤ) p.climate.tempLapse f.temperature
        (rectAll (size : ℤ))
    apply list_ext_jget
    · rw [length_computeTemperature, length_computeTemperature]
    · intro k hk
      rw [length_computeTemperature, hlent] at hk
      obtain ⟨x, y, hx0, hx1, hy0, hy1, hidx⟩ := linear_decomp size k hposN hk
      rw [← hidx]
      have hlenT : (y * (size : ℤ) + x).toNat < f.temperature.length := by
        rw [hidx, hlent]
        simpa using hk
      have hall : (rectAll (size : ℤ)).x0 ≤ x ∧ x ≤ (rectAll (size : ℤ)).x1 ∧
          (rectAll (size : ℤ)).y0 ≤ y ∧ y ≤ (rectAll (size : ℤ)).y1 := by
        refine ⟨hx0, ?_, hy0, ?_⟩
        · show x ≤ (size : ℤ) - 1
          omega
        · show y ≤ (size : ℤ) - 1
          omega
      rw [jget_computeTemperature h1 (size : ℤ) p.climate.tempLapse f.temperature
        rect hpos hrx0 hrx1 x y hx0 hx1 hy0 hy1 hlenT]
      rw [jget_computeTemperature h1 (size : ℤ) p.climate.tempLapse f.temperature
        (rectAll (size : ℤ)) hpos hrx0All hrx1All x y hx0 hx1 hy0 hy1 hlenT]
      rw [if_pos hall]
      by_cases hin : rect.x0 ≤ x ∧ x ≤ rect.x1 ∧ rect.y0 ≤ y ∧ y ≤ rect.y1
      · rw [if_pos hin]
      · rw [if_neg hin, hcons_t x y hx0 hx1 hy0 hy1]
        exact (tempAt_congr f.height h1 (size : ℤ) p.climate.tempLapse x y
          (hH x y x hx0 hx1 hy0 hy1 hx0 hx1 hin (by omega) (by omega))).symm
  · show computeMoisture h1 (size : ℤ) p.climate.moistureShift m1 rect =
      computeMoisture h1 (size : ℤ) p.climate.moistureShift m1
        (rectAll (size : ℤ))
    apply list_ext_jget
    · rw [length_computeMoisture, length_computeMoisture]
    · intro k hk
      rw [length_computeMoisture, hlenm] at hk
      obtain ⟨x, y, hx0, hx1, hy0, hy1, hidx⟩ := linear_decomp size k hposN hk
      rw [← hidx]
      have hlenM : (y * (size : ℤ) + x).toNat < m1.length := by
        rw [hidx, hlenm]
        simpa using hk
      have hall : (rectAll (size : ℤ)).x0 ≤ x ∧ x ≤ (rectAll (size : ℤ)).x1 ∧
          (rectAll (size : ℤ)).y0 ≤ y ∧ y ≤ (rectAll (size : ℤ)).y1 := by
        refine ⟨hx0, ?_, hy0, ?_⟩
        · show x ≤ (size : ℤ) - 1
          omega
        · show y ≤ (size : ℤ) - 1
          omega
      rw [jget_computeMoisture h1 (size : ℤ) p.climate.moistureShift m1
        rect hpos hrx0 hrx1 x y hx0 hx1 hy0 hy1 hlenM]
      rw [jget_computeMoisture h1 (size : ℤ) p.climate.moistureShift m1
        (rectAll (size : ℤ)) hpos hrx0All hrx1All x y hx0 hx1 hy0 hy1 hlenM]
      rw [if_pos hall]
      by_cases hin : rect.x0 ≤ x ∧ x ≤ rect.x1 ∧ rect.y0 ≤ y ∧ y ≤ rect.y1
      · rw [if_pos hin]
      · rw [if_neg hin, hM x y hx0 hx1 hy0 hy1 hin, hcons_m x y hx0 hx1 hy0 hy1]
        exact (moistAt_congr f.height h1 (size : ℤ) p.climate.moistureShift x y
          (hH x y x hx0 hx1 hy0 hy1 hx0 hx1 hin (by omega) (by omega))
          (fun hxl => hH x y (x - 1) hx0 hx1 hy0 hy1 (by omega) (by omega)
            hin (by omega) (by omega))
          (fun hxr => hH x y (x + 1) hx0 hx1 hy0 hy1 (by omega) (by omega)
            hin (by omega) (by omega))).symm
  · rfl
  · show classifyBiomes h1
        (computeTemperature h1 (size : ℤ) p.climate.tempLapse f.temperature rect)
        (computeMoisture h1 (size : ℤ) p.climate.moistureShift m1 rect)
        (size : ℤ) p.climate.seaLevel f.biomes rect =
      classifyBiomes h1
        (computeTemperature h1 (size : ℤ) p.climate.tempLapse f.temperature
          (rectAll (size : ℤ)))
        (computeMoisture h1 (size : ℤ) p.climate.moistureShift m1
          (rectAll (size : ℤ)))
        (size : ℤ) p.climate.seaLevel f.biomes (rectAll (size : ℤ))
    apply list_ext_bget
    · rw [length_classifyBiomes, length_classifyBiomes]
    · intro k hk
      rw [length_classifyBiomes, hlenb] at hk
      obtain ⟨x, y, hx0, hx1, hy0, hy1, hidx⟩ := linear_decomp size k hposN hk
      rw [← hidx]
      have hlenB : (y * (size : ℤ) + x).toNat < f.biomes.length := by
        rw [hidx, hlenb]
        simpa using hk
      have hlenT : (y * (size : ℤ) + x).toNat < f.temperature.length := by
        rw [hidx, hlent]
        simpa using hk
      have hlenM : (y * (size : ℤ) + x).toNat < m1.length := by
        rw [hidx, hlenm]
        simpa using hk
      have hall : (rectAll (size : ℤ)).x0 ≤ x ∧ x ≤ (rectAll (size : ℤ)).x1 ∧
          (rectAll (size : ℤ)).y0 ≤ y ∧ y ≤ (rectAll (size : ℤ)).y1 := by
        refine ⟨hx0, ?_, hy0, ?_⟩
        · show x ≤ (size : ℤ) - 1
          omega
        · show y ≤ (size : ℤ) - 1
          omega
      rw [bget_classifyBiomes h1
        (computeTemperature h1 (size : ℤ) p.climate.tempLapse f.temperature rect)
        (computeMoisture h1 (size : ℤ) p.climate.moistureShift m1 rect)
        (size : ℤ) p.climate.seaLevel f.biomes rect hpos hrx0 hrx1
        x y hx0 hx1 hy0 hy1 hlenB]
      rw [bget_classifyBiomes h1
        (computeTemperature h1 (size : ℤ) p.climate.tempLapse f.temperature
          (rectAll (size : ℤ)))
        (computeMoisture h1 (size : ℤ) p.climate.moistureShift m1
          (rectAll (size : ℤ)))
        (size : ℤ) p.climate.seaLevel f.biomes (rectAll (size : ℤ)) hpos
        hrx0All hrx1All x y hx0 hx1 hy0 hy1 hlenB]
      rw [if_pos hall]
      by_cases hin : rect.x0 ≤ x ∧ x ≤ rect.x1 ∧ rect.y0 ≤ y ∧ y ≤ rect.y1
      · rw [if_pos hin]
        unfold classifyAt
        rw [jget_computeTemperature h1 (size : ℤ) p.climate.tempLapse
            f.temperature rect hpos hrx0 hrx1 x y hx0 hx1 hy0 hy1 hlenT,
          jget_computeTemperature h1 (size : ℤ) p.climate.tempLapse
            f.temperature (rectAll (size : ℤ)) hpos hrx0All hrx1All
            x y hx0 hx1 hy0 hy1 hlenT,
          if_pos hall, if_pos hin,
          jget_computeMoisture h1 (size : ℤ) p.climate.moistureShift m1 rect
            hpos hrx0 hrx1 x y hx0 hx1 hy0 hy1 hlenM,
          jget_computeMoisture h1 (size : ℤ) p.climate.moistureShift m1
            (rectAll (size : ℤ)) hpos hrx0All hrx1All
            x y hx0 hx1 hy0 hy1 hlenM,
          if_pos hall, if_pos hin]
      · rw [if_neg hin]
        have hOwn := hH x y x hx0 hx1 hy0 hy1 hx0 hx1 hin (by omega) (by omega)
        have hL := fun hxl : 0 < x => hH x y (x - 1) hx0 hx1 hy0 hy1
          (by omega) (by omega) hin (by omega) (by omega)
        have hR := fun hxr : x < (size : ℤ) - 1 => hH x y (x + 1) hx0 hx1 hy0 hy1
          (by omega) (by omega) hin (by omega) (by omega)
        rw [hcons_b x y hx0 hx1 hy0 hy1]
        unfold classifyAt
        rw [jget_computeTemperature h1 (size : ℤ) p.climate.tempLapse
            f.temperature (rectAll (size : ℤ)) hpos hrx0All hrx1All
            x y hx0 hx1 hy0 hy1 hlenT, if_pos hall,
          jget_computeMoisture h1 (size : ℤ) p.climate.moistureShift m1
            (rectAll (size : ℤ)) hpos hrx0All hrx1All
            x y hx0 hx1 hy0 hy1 hlenM, if_pos hall]
        rw [hcons_t x y hx0 hx1 hy0 hy1, hcons_m x y hx0 hx1 hy0 hy1]
        rw [hOwn]
        rw [tempAt_congr f.height h1 (size : ℤ) p.climate.tempLapse x y hOwn]
        rw [moistAt_congr f.height h1 (size : ℤ) p.climate.moistureShift x y
          hOwn hL hR]

theorem cellIdx_toNat_lt (size : ℕ) (x y : ℤ) (hx0 : 0 ≤ x)
    (hx1 : x < (size : ℤ)) (hy0 : 0 ≤ y) (hy1 : y < (size : ℤ)) :
    (y * (size : ℤ) + x).toNat < size * size := by
  have hb1 : y * (size : ℤ) ≤ ((size : ℤ) - 1) * (size : ℤ) :=
    mul_le_mul_of_nonneg_right (by omega) (by omega)
  have hb2 : ((size : ℤ) - 1) * (size : ℤ) =
      (size : ℤ) * (size : ℤ) - (size : ℤ) := by ring
  have hb0 : 0 ≤ y * (size : ℤ) + x := by
    have h5 : 0 ≤ y * (size : ℤ) := mul_nonneg hy0 (by omega)
    linarith
  have h4 : y * (size : ℤ) + x < ((size * size : ℕ) : ℤ) := by
    push_cast
    linarith
  generalize hg1 : y * (size : ℤ) + x = t at hb0 h4 ⊢
  generalize hg2 : size * size = n at h4 ⊢
  omega

/-- **C7** — amended.  For every raise, lower or rain brush (smooth
excluded: see the counterexample) applied at an in-grid centre with
positive radius, on a worker state whose height field is in `[0,1]` and
whose derived layers are consistent with its height field, the edit-path
partial recompute (climate restricted to the dirty rectangle, rivers over
the whole grid) produces exactly the same five field arrays as a climate
derivation over the full grid followed by the same river routing. -/
theorem partial_recompute_eq_full_C7 (fall2 : ℚ → ℚ) (size : ℕ)
    (p : SimParams) (f : Fields) (cx cy : ℚ) (b : Brush)
    (hk : b.kind ≠ BrushKind.smooth)
    (hsize : 1 ≤ (size : ℤ)) (hrad : 0 < b.radius)
    (hcx0 : 0 ≤ cx) (hcx1 : cx ≤ (size : ℚ) - 1)
    (hcy0 : 0 ≤ cy) (hcy1 : cy ≤ (size : ℚ) - 1)
    (hlenh : f.height.length = size * size)
    (hlent : f.temperature.length = size * size)
    (hlenm : f.moisture.length = size * size)
    (hlenb : f.biomes.length = size * size)
    (hh01 : ∀ x y : ℤ, 0 ≤ x → x < (size : ℤ) → 0 ≤ y → y < (size : ℤ) →
      ∃ q : ℚ, jget f.height (y * (size : ℤ) + x) = num q ∧ 0 ≤ q ∧ q ≤ 1)
    (hcons_t : ∀ x y : ℤ, 0 ≤ x → x < (size : ℤ) → 0 ≤ y → y < (size : ℤ) →
      jget f.temperature (y * (size : ℤ) + x) =
        tempAt f.height (size : ℤ) p.climate.tempLapse x y)
    (hcons_m : ∀ x y : ℤ, 0 ≤ x → x < (size : ℤ) → 0 ≤ y → y < (size : ℤ) →
      jget f.moisture (y * (size : ℤ) + x) =
        moistAt f.height (size : ℤ) p.climate.moistureShift x y)
    (hcons_b : ∀ x y : ℤ, 0 ≤ x → x < (size : ℤ) → 0 ≤ y → y < (size : ℤ) →
      bget f.biomes (y * (size : ℤ) + x) =
        biomeAt p.climate.seaLevel (jget f.height (y * (size : ℤ) + x))
          (jget f.temperature (y * (size : ℤ) + x))
          (jget f.moisture (y * (size : ℤ) + x))) :
    partRecompute size p
      { f with
        height := (applyBrush fall2 f.height f.moisture (size : ℤ) cx cy b).1,
        moisture := (applyBrush fall2 f.height f.moisture (size : ℤ) cx cy b).2.1 }
      (applyBrush fall2 f.height f.moisture (size : ℤ) cx cy b).2.2 =
    computeRivers (recomputeDerived
      { f with
        height := (applyBrush fall2 f.height f.moisture (size : ℤ) cx cy b).1,
        moisture := (applyBrush fall2 f.height f.moisture (size : ℤ) cx cy b).2.1 }
      (size : ℤ) p (rectAll (size : ℤ))) (size : ℤ) p := by
  have hpos : 0 < (size : ℤ) := by omega
  rcases b with ⟨bk, rad, str⟩
  cases bk with
  | smooth => exact absurd rfl hk
  | raise =>
    have hax := strokeBounds_axis cx rad (size : ℤ) 1 (le_refl 1) hrad hsize
      hcx0 hcx1
    refine partFull_core size p f _ _ _ hpos hlent hlenm hlenb
      hax.1 hax.2.2.1 ?_ ?_ hcons_t hcons_m hcons_b
    · intro x y x' hx0 hx1 hy0 hy1 hx'0 hx'1 hout hxx hxx'
      obtain ⟨q, hq, hq0, hq1⟩ := hh01 x' y hx'0 hx'1 hy0 hy1
      exact raiseLike_height_unchanged fall2 f.height (size : ℤ) cx cy rad str
        (strokeBounds cx cy rad (size : ℤ) 1) hpos hax.1 hax.2.2.1
        x' y hx'0 hx'1 hy0 hy1
        (by rw [hlenh]; exact cellIdx_toNat_lt size x' y hx'0 hx'1 hy0 hy1)
        (outside_bounds_far cx cy rad (size : ℤ) x y x' hsize hrad
          hcx0 hcx1 hcy0 hcy1 hx0 hx1 hy0 hy1 hxx hxx' hout)
        q hq hq0 hq1
    · intro x y _ _ _ _ _
      rfl
  | lower =>
    have hax := strokeBounds_axis cx rad (size : ℤ) 1 (le_refl 1) hrad hsize
      hcx0 hcx1
    refine partFull_core size p f _ _ _ hpos hlent hlenm hlenb
      hax.1 hax.2.2.1 ?_ ?_ hcons_t hcons_m hcons_b
    · intro x y x' hx0 hx1 hy0 hy1 hx'0 hx'1 hout hxx hxx'
      obtain ⟨q, hq, hq0, hq1⟩ := hh01 x' y hx'0 hx'1 hy0 hy1
      exact raiseLike_height_unchanged fall2 f.height (size : ℤ) cx cy rad
        (-str) (strokeBounds cx cy rad (size : ℤ) 1) hpos hax.1 hax.2.2.1
        x' y hx'0 hx'1 hy0 hy1
        (by rw [hlenh]; exact cellIdx_toNat_lt size x' y hx'0 hx'1 hy0 hy1)
        (outside_bounds_far cx cy rad (size : ℤ) x y x' hsize hrad
          hcx0 hcx1 hcy0 hcy1 hx0 hx1 hy0 hy1 hxx hxx' hout)
        q hq hq0 hq1
    · intro x y _ _ _ _ _
      rfl
  | rain =>
    have hax := strokeBounds_axis cx rad (size : ℤ) 1 (le_refl 1) hrad hsize
      hcx0 hcx1
    refine partFull_core size p f _ _ _ hpos hlent ?_ hlenb
      hax.1 hax.2.2.1 ?_ ?_ hcons_t hcons_m hcons_b
    · show (clampRegion (radialAdd fall2 f.moisture (size : ℤ) cx cy rad str)
        (size : ℤ) (strokeBounds cx cy rad (size : ℤ) 1) 0 1).length =
        size * size
      rw [length_clampRegion, length_radialAdd]
      exact hlenm
    · intro x y x' hx0 hx1 hy0 hy1 hx'0 hx'1 hout hxx hxx'
      rfl
    · intro x y hx0 hx1 hy0 hy1 hout
      exact rain_moist_unchanged fall2 f.moisture (size : ℤ) cx cy rad str
        (strokeBounds cx cy rad (size : ℤ) 1) hpos hax.1 hax.2.2.1
        x y hx0 hx1 hy0 hy1
        (by rw [hlenm]; exact cellIdx_toNat_lt size x y hx0 hx1 hy0 hy1)
        (outside_bounds_far cx cy rad (size : ℤ) x y x hsize hrad
          hcx0 hcx1 hcy0 hcy1 hx0 hx1 hy0 hy1 (by omega) (by omega) hout)
        hout

/-- A 1-cell field set whose derived layers are consistent with its height
(at size 1 the temperature formula divides 0 by 0, hence NaN). -/
def consField1 : Fields :=
  { height := [num (1/2)], temperature := [JsNum.nan], moisture := [num (1/2)],
    rivers := [0], biomes := [3] }

/-- A raise brush of radius 1 and strength 0. -/
def raiseBrush1 : Brush :=
  { kind := BrushKind.raise, radius := 1, strength := 0 }

/-- The brush application of the C7 witness. -/
def applyC7 : List JsNum × List JsNum × DirtyRect :=
  applyBrush (fun _ => 0) consField1.height consField1.moisture
    ((1 : ℕ) : ℤ) 0 0 raiseBrush1

/-- The fields after the C7 witness brush stamp. -/
def brushedC7 : Fields :=
  { consField1 with height := applyC7.1, moisture := applyC7.2.1 }

theorem partial_recompute_eq_full_C7_witness :
    raiseBrush1.kind ≠ BrushKind.smooth ∧
    (0 : ℚ) < raiseBrush1.radius ∧
    (partRecompute 1 (simpleParams 0) brushedC7 applyC7.2.2 =
      computeRivers (recomputeDerived brushedC7 ((1 : ℕ) : ℤ) (simpleParams 0)
        (rectAll ((1 : ℕ) : ℤ))) ((1 : ℕ) : ℤ) (simpleParams 0)) :=
  ⟨by decide, by with_unfolding_all decide,
    partial_recompute_eq_full_C7 (fun _ => 0) 1 (simpleParams 0) consField1
      0 0 raiseBrush1
      (by decide)
      (by decide)
      (by with_unfolding_all decide)
      (by with_unfolding_all decide)
      (by with_unfolding_all decide)
      (by with_unfolding_all decide)
      (by with_unfolding_all decide)
      (by decide)
      (by decide)
      (by decide)
      (by decide)
      (fun x y hx0 hx1 hy0 hy1 => by
        have hx : x = 0 := by omega
        have hy : y = 0 := by omega
        subst hx
        subst hy
        exact ⟨1/2, by with_unfolding_all decide,
          by with_unfolding_all decide, by with_unfolding_all decide⟩)
      (fun x y hx0 hx1 hy0 hy1 => by
        have hx : x = 0 := by omega
        have hy : y = 0 := by omega
        subst hx
        subst hy
        with_unfolding_all decide)
      (fun x y hx0 hx1 hy0 hy1 => by
        have hx : x = 0 := by omega
        have hy : y = 0 := by omega
        subst hx
        subst hy
        with_unfolding_all decide)
      (fun x y hx0 hx1 hy0 hy1 => by
        have hx : x = 0 := by omega
        have hy : y = 0 := by omega
        subst hx
        subst hy
        with_unfolding_all decide)⟩

/-- Parameters of the C7 counterexample (size 5, one octave, no warp). -/
def p5C7 : SimParams :=
  { size := 5
    noise := { octaves := 1, lacunarity := 2, gain := 1/2, warp := 0 }
    climate := { seaLevel := 3/10, tempLapse := 1/2, moistureShift := -1/2 }
    riverThreshold := 1/50 }

/-- A smooth brush of radius 1 and strength 1/2. -/
def smoothBrush1 : Brush :=
  { kind := BrushKind.smooth, radius := 1, strength := 1/2 }

/-- The worker fields right after `init` with seed 1 and `p5C7`. -/
def f5C7 : Fields := fullRecompute 5 1 p5C7 (allocateFields 5)

/-- The worker state right after `init` with seed 1 and `p5C7`. -/
def st5C7 : WorkerState :=
  { size := 5, seed := 1, params := some p5C7, fields := some f5C7 }

/-- The smooth brush application of the C7 counterexample at centre (0,0). -/
def applyS5 : List JsNum × List JsNum × DirtyRect :=
  applyBrush (fun _ => 0) f5C7.height f5C7.moisture ((5 : ℕ) : ℤ) 0 0
    smoothBrush1

/-- The fields after the C7 counterexample smooth stamp. -/
def brushed5C7 : Fields :=
  { f5C7 with height := applyS5.1, moisture := applyS5.2.1 }

/-- **C7** — counterexample.  On the worker state reached by a single
`init` (seed 1, size 5), a smooth brush at the in-grid centre (0,0) with
radius 1 returns the dirty rectangle [0..3]×[0..3]; the stamp changes
heights up to the rectangle's edge, so the moisture of the out-of-rectangle
cell 19 = (4,3) — which depends on the height of its west neighbor (3,3)
inside the rectangle — goes stale: the edit-path partial recompute and a
full-grid climate derivation over the same brushed fields disagree on the
moisture array. -/
theorem partial_recompute_smooth_cex_C7 :
    onMessage (fun _ => 0) initialWorkerState (WorkerIn.init 1 p5C7) =
      Except.ok st5C7 ∧
    onMessage (fun _ => 0) st5C7 (WorkerIn.brush 0 0 smoothBrush1) =
      Except.ok { st5C7 with
        fields := some (partRecompute 5 p5C7 brushed5C7 applyS5.2.2) } ∧
    jget (partRecompute 5 p5C7 brushed5C7 applyS5.2.2).moisture 19 ≠
      jget (computeRivers (recomputeDerived brushed5C7 ((5 : ℕ) : ℤ) p5C7
        (rectAll ((5 : ℕ) : ℤ))) ((5 : ℕ) : ℤ) p5C7).moisture 19 := by
  refine ⟨rfl, rfl, ?_⟩
  with_unfolding_all decide
